import Mathlib

/-!
Shallow embedding of the Gomoku rules engine (`src/lib/gomokuRules.ts`) and
AI strategy selector (`src/lib/aiStrategies.ts`), with the numeric constants
of `src/constants/gameConstants.ts`.  JavaScript numbers are modelled by `ℚ`
(every constant in play is an exact decimal), boards by lists of lists of
optional players, and the two `Math.random()` draws by an explicit rational
parameter.  The two unbounded `while` scans over a board line are embedded
with an explicit fuel of 16, which is exact on a 15x15 board (a line holds at
most 15 cells, proved below).
-/

set_option maxRecDepth 4000000

namespace Gomoku

/-- Player identifiers: the source uses the literals `1` and `2`. -/
inductive Player where
  | one : Player
  | two : Player
deriving DecidableEq, Repr

/-- Opponent of a player (`player === 1 ? 2 : 1` in the source). -/
def Player.other : Player → Player
  | .one => .two
  | .two => .one

/-- A cell holds a player's stone or `null`. -/
abbrev Cell := Option Player

/-- A board is a matrix of cells (15x15 in every intended use). -/
abbrev Board := List (List Cell)

/-- A (row, column) pair.  JavaScript numbers may go negative while scanning,
so coordinates are integers. -/
structure Position where
  row : Int
  col : Int
deriving DecidableEq, Repr

/-- A direction is a (row-delta, column-delta) pair. -/
abbrev Direction := Int × Int

/-- A move: a position plus the player who played it. -/
structure Move where
  position : Position
  player : Player
deriving DecidableEq, Repr

def BOARD_SIZE : Nat := 15

def WIN_LENGTH : Nat := 5

def SCORE_FIVE : ℚ := 1000000
def SCORE_OPEN_FOUR : ℚ := 10000
def SCORE_FOUR : ℚ := 1000
def SCORE_OPEN_THREE : ℚ := 500
def SCORE_THREE : ℚ := 100
def SCORE_TWO : ℚ := 10

def AI_EASY_SEARCH_RANGE : Nat := 3
def AI_MEDIUM_HARD_SEARCH_RANGE : Nat := 2
def AI_HARD_MOVE_WEIGHTS : List ℚ := [7/10, 2/10, 1/10]
def AI_HARD_TOP_MOVES_COUNT : Nat := 3

def BONUS_WINNING_MOVE : ℚ := 10000000
def BONUS_BLOCK_WIN : ℚ := 5000000
def BONUS_OPEN_FOUR_MULTIPLIER : ℚ := 50000
def BONUS_FOUR_MULTIPLIER : ℚ := 10000
def BONUS_OPEN_THREE_MULTIPLIER : ℚ := 5000
def BONUS_BLOCK_OPEN_FOUR : ℚ := 100000
def BONUS_BLOCK_FOUR : ℚ := 20000

def MEDIUM_AI_OPPONENT_PATTERN_MULTIPLIER : ℚ := 12/10
def HARD_AI_OWN_PATTERN_MULTIPLIER : ℚ := 15/10
def HARD_AI_OPPONENT_PATTERN_MULTIPLIER : ℚ := 13/10

/-- The four axis directions checked by the engine, in source order:
horizontal, vertical, diagonal-down-right, diagonal-down-left. -/
def FOUR_DIRECTIONS : List Direction := [(0, 1), (1, 0), (1, 1), (1, -1)]

/-- Source `isValidPosition`: both coordinates in `[0, 14]`. -/
def isValidPosition (row col : Int) : Bool :=
  decide (0 ≤ row) && decide (row < (BOARD_SIZE : Int)) &&
    decide (0 ≤ col) && decide (col < (BOARD_SIZE : Int))

/-- Reading `board[row][col]`.  Out-of-range reads yield `none` (the source
only reads cells after an `isValidPosition` guard or under the caller's
range contract). -/
def getCell (b : Board) (row col : Int) : Cell :=
  if 0 ≤ row ∧ 0 ≤ col then (b.getD row.toNat []).getD col.toNat none else none

/-- Cell at a `Position`. -/
def cellAt (b : Board) (p : Position) : Cell :=
  getCell b p.row p.col

/-- Source `isEmpty`. -/
def isEmpty (b : Board) (p : Position) : Bool :=
  cellAt b p == none

/-- Source `placeStone`: copy the board and overwrite one cell.  An
out-of-range JavaScript index assignment creates a non-index property and
leaves every cell unchanged, which the guard models. -/
def placeStone (b : Board) (pos : Position) (player : Player) : Board :=
  if isValidPosition pos.row pos.col then
    b.set pos.row.toNat ((b.getD pos.row.toNat []).set pos.col.toNat (some player))
  else b

/-- Fuel bound for the line scans: one more than the longest possible line. -/
def SCAN_FUEL : Nat := 16

/-- One directional `while` loop of the source: starting at `(row, col)`,
collect consecutive cells holding `player`'s stone while stepping by `d`;
also return the coordinates at which the loop stopped. -/
def scanRun (b : Board) (player : Player) (d : Direction) :
    Nat → Int → Int → List Position × Int × Int
  | 0, row, col => ([], row, col)
  | fuel + 1, row, col =>
    if isValidPosition row col && (getCell b row col == some player) then
      let rest := scanRun b player d fuel (row + d.1) (col + d.2)
      (⟨row, col⟩ :: rest.1, rest.2)
    else ([], row, col)

/-- Source `countConsecutive`: starts from `position` with `count = 1`
(without reading that cell), extends forward then backward, returning the
merged count and the run positions (backward-most first). -/
def countConsecutive (b : Board) (pos : Position) (d : Direction) (player : Player) :
    Nat × List Position :=
  let fwd := scanRun b player d SCAN_FUEL (pos.row + d.1) (pos.col + d.2)
  let bwd := scanRun b player (-d.1, -d.2) SCAN_FUEL (pos.row - d.1) (pos.col - d.2)
  (1 + fwd.1.length + bwd.1.length, bwd.1.reverse ++ pos :: fwd.1)

/-- Result record of `checkWin`. -/
structure WinResult where
  isWin : Bool
  winningLine : Option (List Position)
deriving DecidableEq, Repr

/-- Loop body of `checkWin` over the remaining directions. -/
def checkWinAux (b : Board) (pos : Position) (player : Player) :
    List Direction → WinResult
  | [] => ⟨false, none⟩
  | d :: ds =>
    let r := countConsecutive b pos d player
    if WIN_LENGTH ≤ r.1 then ⟨true, some (r.2.take WIN_LENGTH)⟩
    else checkWinAux b pos player ds

/-- Source `checkWin`: first direction whose merged run reaches 5 wins, and
the winning line is the first five positions of that run. -/
def checkWin (b : Board) (pos : Position) (player : Player) : WinResult :=
  checkWinAux b pos player FOUR_DIRECTIONS

/-- Source `isBoardFull`: no empty cell among the 225 scanned cells. -/
def isBoardFull (b : Board) : Bool :=
  (List.range BOARD_SIZE).all fun row : Nat =>
    (List.range BOARD_SIZE).all fun col : Nat =>
      !(getCell b row col == none)

/-- Pattern categories of the classifier. -/
inductive PatternType where
  | five : PatternType
  | openFour : PatternType
  | four : PatternType
  | openThree : PatternType
  | three : PatternType
  | two : PatternType
deriving DecidableEq, Repr

/-- A detected pattern. -/
structure Pattern where
  type : PatternType
  direction : Direction
  positions : List Position
  score : ℚ
deriving DecidableEq, Repr

/-- Source `detectPattern`: scan forward starting at `position` itself, then
backward from the cell before it, record how many of the two stop cells are
on-board and empty, and classify. -/
def detectPattern (b : Board) (pos : Position) (d : Direction) (player : Player) :
    Option Pattern :=
  let fwd := scanRun b player d SCAN_FUEL pos.row pos.col
  let fwdOpen : Nat :=
    if isValidPosition fwd.2.1 fwd.2.2 && (getCell b fwd.2.1 fwd.2.2 == none) then 1 else 0
  let bwd := scanRun b player (-d.1, -d.2) SCAN_FUEL (pos.row - d.1) (pos.col - d.2)
  let bwdOpen : Nat :=
    if isValidPosition bwd.2.1 bwd.2.2 && (getCell b bwd.2.1 bwd.2.2 == none) then 1 else 0
  let consecutive := fwd.1.length + bwd.1.length
  let openEnds := fwdOpen + bwdOpen
  let positions := bwd.1.reverse ++ fwd.1
  if WIN_LENGTH ≤ consecutive then
    some ⟨.five, d, positions, SCORE_FIVE⟩
  else if consecutive = 4 then
    if openEnds = 2 then some ⟨.openFour, d, positions, SCORE_OPEN_FOUR⟩
    else if openEnds = 1 then some ⟨.four, d, positions, SCORE_FOUR⟩
    else none
  else if consecutive = 3 then
    if openEnds = 2 then some ⟨.openThree, d, positions, SCORE_OPEN_THREE⟩
    else if openEnds = 1 then some ⟨.three, d, positions, SCORE_THREE⟩
    else none
  else if consecutive = 2 ∧ 0 < openEnds then
    some ⟨.two, d, positions, SCORE_TWO⟩
  else none

/-- Source `evaluatePosition`: place a hypothetical stone and collect the
non-null patterns over the four directions. -/
def evaluatePosition (b : Board) (pos : Position) (player : Player) : List Pattern :=
  let testBoard := placeStone b pos player
  FOUR_DIRECTIONS.filterMap fun d => detectPattern testBoard pos d player

/-- Source `countPieces`. -/
def countPieces (b : Board) : Nat × Nat :=
  ((List.range BOARD_SIZE).flatMap fun row : Nat =>
      (List.range BOARD_SIZE).map fun col : Nat => getCell b row col).foldl
    (fun acc cell =>
      match cell with
      | some .one => (acc.1 + 1, acc.2)
      | some .two => (acc.1, acc.2 + 1)
      | none => acc)
    (0, 0)

/-- Result record of `checkGameOver`. -/
structure GameOverResult where
  isOver : Bool
  winner : Option Player
  isDraw : Bool
  winningLine : Option (List Position)
deriving DecidableEq, Repr

/-- Source `checkGameOver`: the last move's win check runs before the
full-board draw check. -/
def checkGameOver (b : Board) (lastMove : Option Move) : GameOverResult :=
  match lastMove with
  | some m =>
    let winCheck := checkWin b m.position m.player
    if winCheck.isWin then ⟨true, some m.player, false, winCheck.winningLine⟩
    else if isBoardFull b then ⟨true, none, true, none⟩
    else ⟨false, none, false, none⟩
  | none =>
    if isBoardFull b then ⟨true, none, true, none⟩
    else ⟨false, none, false, none⟩

/-- Append-if-absent, modelling insertion into a JavaScript `Set` (the
string keys are in bijection with positions, and `Array.from` returns the
insertion order). -/
def insertUnique (acc : List Position) (p : Position) : List Position :=
  if p ∈ acc then acc else acc ++ [p]

/-- Offsets `-range .. range` as integers. -/
def offsetList (range : Nat) : List Int :=
  (List.range (2 * range + 1)).map fun i : Nat => (i : Int) - (range : Int)

/-- Source `getRelevantPositions`: center cell on an empty board, otherwise
every empty in-range cell within Chebyshev distance `range` of an occupied
cell, deduplicated in first-insertion order. -/
def getRelevantPositions (b : Board) (range : Nat) : List Position :=
  let counts := countPieces b
  if counts.1 = 0 ∧ counts.2 = 0 then
    [⟨(BOARD_SIZE : Int) / 2, (BOARD_SIZE : Int) / 2⟩]
  else
    ((List.range BOARD_SIZE).flatMap fun row : Nat =>
      (List.range BOARD_SIZE).flatMap fun col : Nat =>
        if (getCell b row col).isSome then
          (offsetList range).flatMap fun dr : Int =>
            (offsetList range).filterMap fun dc : Int =>
              let newRow := (row : Int) + dr
              let newCol := (col : Int) + dc
              if isValidPosition newRow newCol && (getCell b newRow newCol == none) then
                some ⟨newRow, newCol⟩
              else none
        else []).foldl insertUnique []

/-- Sum of pattern scores, as in `patterns.reduce((sum, p) => sum + p.score, 0)`. -/
def patternScoreSum (ps : List Pattern) : ℚ :=
  ps.foldl (fun sum p => sum + p.score) 0

/-- Source `getEasyMove`: a uniformly random candidate, the draw `r ∈ [0,1)`
made explicit (`Math.floor(Math.random() * length)`). -/
def getEasyMove (b : Board) (r : ℚ) : Option Position :=
  let relevantPositions := getRelevantPositions b AI_EASY_SEARCH_RANGE
  if relevantPositions.isEmpty then none
  else some (relevantPositions.getD (⌊r * (relevantPositions.length : ℚ)⌋).toNat ⟨0, 0⟩)

/-- Whether playing `player` at `pos` makes `checkWin` report a win. -/
def winsAt (b : Board) (pos : Position) (player : Player) : Bool :=
  (checkWin (placeStone b pos player) pos player).isWin

/-- Candidate score used by the medium tier's evaluation step. -/
def mediumTotalScore (b : Board) (player : Player) (pos : Position) : ℚ :=
  let myScore := patternScoreSum (evaluatePosition b pos player)
  let opponentScore := patternScoreSum (evaluatePosition b pos player.other)
  myScore + opponentScore * MEDIUM_AI_OPPONENT_PATTERN_MULTIPLIER

/-- Fold step of the medium tier's best-score loop; the accumulator `none`
models the initial `bestScore = -Infinity, bestPosition = null`. -/
def mediumBestStep (b : Board) (player : Player)
    (best : Option (ℚ × Position)) (pos : Position) : Option (ℚ × Position) :=
  let totalScore := mediumTotalScore b player pos
  match best with
  | none => some (totalScore, pos)
  | some (bestScore, bestPosition) =>
    if bestScore < totalScore then some (totalScore, pos)
    else some (bestScore, bestPosition)

/-- Source `getMediumMove`: immediate win, then block, then best-scored
candidate (strict improvement only, so the first maximum is kept). -/
def getMediumMove (b : Board) (player : Player) : Option Position :=
  let opponent := player.other
  let relevantPositions := getRelevantPositions b AI_MEDIUM_HARD_SEARCH_RANGE
  if relevantPositions.isEmpty then none
  else match relevantPositions.find? fun pos => winsAt b pos player with
  | some pos => some pos
  | none =>
    match relevantPositions.find? fun pos => winsAt b pos opponent with
    | some pos => some pos
    | none =>
      (relevantPositions.foldl (mediumBestStep b player) none).map fun best => best.2

/-- Evaluation record of the hard tier. -/
structure ThreatEvaluation where
  position : Position
  threats : List Pattern
  totalScore : ℚ
  isWinningMove : Bool
  blocksWinningMove : Bool
deriving DecidableEq, Repr

/-- Per-candidate evaluation of the hard tier. -/
def evalThreat (b : Board) (player : Player) (pos : Position) : ThreatEvaluation :=
  let opponent := player.other
  let myPatterns := evaluatePosition b pos player
  let opponentPatterns := evaluatePosition b pos opponent
  let isWinningMove := winsAt b pos player
  let blocksWinningMove := winsAt b pos opponent
  let myScore := patternScoreSum myPatterns
  let opponentScore := patternScoreSum opponentPatterns
  let base := myScore * HARD_AI_OWN_PATTERN_MULTIPLIER +
    opponentScore * HARD_AI_OPPONENT_PATTERN_MULTIPLIER
  let base := if isWinningMove then base + BONUS_WINNING_MOVE else base
  let base := if blocksWinningMove then base + BONUS_BLOCK_WIN else base
  let openFours := (myPatterns.filter fun p => p.type == .openFour).length
  let fours := (myPatterns.filter fun p => p.type == .four).length
  let openThrees := (myPatterns.filter fun p => p.type == .openThree).length
  let base := base + (openFours : ℚ) * BONUS_OPEN_FOUR_MULTIPLIER
  let base := base + (fours : ℚ) * BONUS_FOUR_MULTIPLIER
  let base := base + (openThrees : ℚ) * BONUS_OPEN_THREE_MULTIPLIER
  let opponentOpenFours := (opponentPatterns.filter fun p => p.type == .openFour).length
  let opponentFours := (opponentPatterns.filter fun p => p.type == .four).length
  let base := base + (opponentOpenFours : ℚ) * BONUS_BLOCK_OPEN_FOUR
  let base := base + (opponentFours : ℚ) * BONUS_BLOCK_FOUR
  ⟨pos, myPatterns ++ opponentPatterns, base, isWinningMove, blocksWinningMove⟩

/-- Descending-by-score comparison; `Array.prototype.sort` with comparator
`(a, b) => b.totalScore - a.totalScore` is a stable sort, modelled by a
stable insertion sort with this relation (a stable sort's output is uniquely
determined by the comparator, so the choice of stable algorithm is free). -/
def hardLE (a b : ThreatEvaluation) : Bool :=
  decide (b.totalScore ≤ a.totalScore)

/-- Insert an evaluation after every already-placed evaluation whose score is
at least as large, keeping earlier-scanned candidates first on ties. -/
def insertDesc (x : ThreatEvaluation) : List ThreatEvaluation → List ThreatEvaluation
  | [] => [x]
  | y :: ys =>
    if x.totalScore ≤ y.totalScore then y :: insertDesc x ys else x :: y :: ys

/-- Stable sort, descending by `totalScore`. -/
def sortDesc (l : List ThreatEvaluation) : List ThreatEvaluation :=
  l.foldl (fun acc x => insertDesc x acc) []

/-- Cumulative-threshold selection loop over the top moves
(`cumulative += WEIGHTS[i]; if (random <= cumulative) return ...`). -/
def pickWeighted (r : ℚ) : List ThreatEvaluation → List ℚ → ℚ → Option Position
  | [], _, _ => none
  | _ :: _, [], _ => none
  | t :: ts, w :: ws, cumulative =>
    let cumulative := cumulative + w
    if r ≤ cumulative then some t.position else pickWeighted r ts ws cumulative

/-- Source `getHardMove` with the uniform draw `r ∈ [0,1)` made explicit:
score every candidate, sort descending (stably), weighted-sample the top 3,
falling back to the top-ranked candidate. -/
def getHardMove (b : Board) (player : Player) (r : ℚ) : Option Position :=
  let relevantPositions := getRelevantPositions b AI_MEDIUM_HARD_SEARCH_RANGE
  if relevantPositions.isEmpty then none
  else
    let evaluations := sortDesc (relevantPositions.map (evalThreat b player))
    let topMoves := evaluations.take AI_HARD_TOP_MOVES_COUNT
    match pickWeighted r topMoves AI_HARD_MOVE_WEIGHTS 0 with
    | some pos => some pos
    | none => evaluations.head?.map fun e => e.position

/-- The three difficulty tags. -/
inductive Difficulty where
  | easy : Difficulty
  | medium : Difficulty
  | hard : Difficulty
deriving DecidableEq, Repr

/-- Source `getAIMove`, dispatching on the difficulty tag; `r` is the one
uniform random draw consumed by the easy and hard tiers. -/
def getAIMove (b : Board) (player : Player) (difficulty : Difficulty) (r : ℚ) :
    Option Position :=
  match difficulty with
  | .easy => getEasyMove b r
  | .medium => getMediumMove b player
  | .hard => getHardMove b player r

/-! Specification-side definitions: the vocabulary the claims are stated in
(maximal runs, open ends, Chebyshev distance, the classification table, the
rank-selection descriptions), plus concrete boards used as witnesses. -/

/-- The loop condition of both scans: the cell is on-board and holds the
player's stone. -/
def stoneCond (b : Board) (player : Player) (row col : Int) : Bool :=
  isValidPosition row col && (getCell b row col == some player)

/-- A unit step along one of the four axes (or its reverse): both components
have absolute value at most 1 and at least one is exactly 1.  Every direction
the engine scans with has this shape, which bounds a contiguous in-range line
to at most 15 cells. -/
def goodDir (d : Direction) : Prop :=
  d.1.natAbs ≤ 1 ∧ d.2.natAbs ≤ 1 ∧ (d.1.natAbs = 1 ∨ d.2.natAbs = 1)

/-- Position reached from `pos` after `i` steps in direction `d` (negative
`i` walks backward). -/
def stepP (pos : Position) (d : Direction) (i : Int) : Position :=
  ⟨pos.row + i * d.1, pos.col + i * d.2⟩

/-- Number of consecutive stones of `player` strictly ahead of `pos` along
`d` (the forward extension of the run through `pos`). -/
def fwdExt (b : Board) (pos : Position) (d : Direction) (player : Player) : Nat :=
  (scanRun b player d SCAN_FUEL (pos.row + d.1) (pos.col + d.2)).1.length

/-- Number of consecutive stones of `player` strictly behind `pos` along
`d` (the backward extension of the run through `pos`). -/
def bwdExt (b : Board) (pos : Position) (d : Direction) (player : Player) : Nat :=
  (scanRun b player (-d.1, -d.2) SCAN_FUEL (pos.row - d.1) (pos.col - d.2)).1.length

/-- Merged length of the maximal contiguous run through `pos` along the
axis of `d`, counting `pos` itself as one cell. -/
def runLen (b : Board) (pos : Position) (d : Direction) (player : Player) : Nat :=
  1 + fwdExt b pos d player + bwdExt b pos d player

/-- An on-board empty cell ("open" in the spec's sense). -/
def openCellB (b : Board) (p : Position) : Bool :=
  isValidPosition p.row p.col && (cellAt b p == none)

/-- How many of the two ends of the run through `pos` along `d` are
on-board and empty: the cell one past the forward extension and the cell
one past the backward extension. -/
def openEndsCount (b : Board) (pos : Position) (d : Direction) (player : Player) : Nat :=
  (if openCellB b (stepP pos d ((fwdExt b pos d player : Int) + 1)) then 1 else 0) +
    (if openCellB b (stepP pos d (-((bwdExt b pos d player : Int) + 1))) then 1 else 0)

/-- The classification table of spec section 4.1, keyed on the merged
consecutive count and the number of open ends. -/
def classifyTable (consecutive openEnds : Nat) : Option (PatternType × ℚ) :=
  if 5 ≤ consecutive then some (.five, 1000000)
  else if consecutive = 4 ∧ openEnds = 2 then some (.openFour, 10000)
  else if consecutive = 4 ∧ openEnds = 1 then some (.four, 1000)
  else if consecutive = 3 ∧ openEnds = 2 then some (.openThree, 500)
  else if consecutive = 3 ∧ openEnds = 1 then some (.three, 100)
  else if consecutive = 2 ∧ 1 ≤ openEnds then some (.two, 10)
  else none

/-- Chebyshev distance between two positions. -/
def chebDist (p q : Position) : Nat :=
  max (p.row - q.row).natAbs (p.col - q.col).natAbs

/-- Claim-side characterization of a relevant position: on-board, empty,
and within Chebyshev distance `range` of some occupied on-board cell. -/
def relevantSpec (b : Board) (range : Nat) (p : Position) : Prop :=
  isValidPosition p.row p.col = true ∧ cellAt b p = none ∧
    ∃ q : Position, isValidPosition q.row q.col = true ∧ (cellAt b q).isSome ∧
      chebDist q p ≤ range

/-- Well-formedness of a board: a 15x15 matrix. -/
def boardWF (b : Board) : Prop :=
  b.length = BOARD_SIZE ∧ ∀ row ∈ b, row.length = BOARD_SIZE

/-- The board has no stone on any on-board cell. -/
def noStones (b : Board) : Prop :=
  ∀ r < BOARD_SIZE, ∀ c < BOARD_SIZE, getCell b r c = none

/-- The cell `e` is the unique empty on-board cell of `b`. -/
def singleEmptyAt (b : Board) (e : Position) : Prop :=
  isValidPosition e.row e.col = true ∧ cellAt b e = none ∧
    ∀ r < BOARD_SIZE, ∀ c < BOARD_SIZE,
      getCell b r c = none → ((r : Int), (c : Int)) = (e.row, e.col)

/-- Candidate search range of each difficulty tier. -/
def searchRange : Difficulty → Nat
  | .easy => AI_EASY_SEARCH_RANGE
  | _ => AI_MEDIUM_HARD_SEARCH_RANGE

/-- First candidate (in scan order) whose score is maximal among the
candidates: the claims' description of a strict-improvement scan. -/
def firstMaxBy (l : List Position) (f : Position → ℚ) : Option Position :=
  l.find? fun p => l.all fun q => decide (f q ≤ f p)

/-- The medium tier as the claims describe it: first immediate win, else
first block, else the first candidate of maximal combined score. -/
def mediumSpecMove (b : Board) (player : Player) : Option Position :=
  let cand := getRelevantPositions b AI_MEDIUM_HARD_SEARCH_RANGE
  (cand.find? fun p => winsAt b p player).orElse fun _ =>
    (cand.find? fun p => winsAt b p player.other).orElse fun _ =>
      firstMaxBy cand (mediumTotalScore b player)

/-- The player `player` has four consecutive stones somewhere with at least
one on-board empty cell adjacent to that window along its axis. -/
def hasOpenRun4 (b : Board) (player : Player) : Prop :=
  ∃ p d, d ∈ FOUR_DIRECTIONS ∧
    (∀ i : Nat, i < 4 → stoneCond b player (stepP p d i).row (stepP p d i).col = true) ∧
    (openCellB b (stepP p d (-1)) = true ∨ openCellB b (stepP p d 4) = true)

/-- No empty on-board cell is an immediate win for `player`. -/
def noImmediateWin (b : Board) (player : Player) : Prop :=
  ∀ r < BOARD_SIZE, ∀ c < BOARD_SIZE, getCell b r c = none →
    winsAt b ⟨r, c⟩ player = false

instance (b : Board) : Decidable (noStones b) := by
  unfold noStones
  infer_instance

instance (b : Board) (e : Position) : Decidable (singleEmptyAt b e) := by
  unfold singleEmptyAt
  infer_instance

instance (b : Board) (player : Player) : Decidable (noImmediateWin b player) := by
  unfold noImmediateWin
  infer_instance

instance (b : Board) : Decidable (boardWF b) := by
  unfold boardWF
  infer_instance

/-- The hard tier's candidates ranked descending by total score. -/
def hardRanked (b : Board) (player : Player) : List ThreatEvaluation :=
  sortDesc ((getRelevantPositions b AI_MEDIUM_HARD_SEARCH_RANGE).map (evalThreat b player))

/-- Rank selection as claim C5 words it, reading "lies below" as a strict
comparison with the cumulative weights 0.7, 0.9, 1.0. -/
def hardClaimSelect (b : Board) (player : Player) (r : ℚ) : Option Position :=
  match hardRanked b player with
  | [] => none
  | h :: _ =>
    if r < 7/10 then some h.position
    else if r < 7/10 + 2/10 then some (((hardRanked b player).getD 1 h).position)
    else if r < 7/10 + 2/10 + 1/10 then some (((hardRanked b player).getD 2 h).position)
    else some h.position

/-- Rank selection with thresholds met inclusively (`random <= cumulative`),
the behavior the source actually has. -/
def hardAmendedSelect (b : Board) (player : Player) (r : ℚ) : Option Position :=
  match hardRanked b player with
  | [] => none
  | h :: _ =>
    if r ≤ 7/10 then some h.position
    else if r ≤ 7/10 + 2/10 then some (((hardRanked b player).getD 1 h).position)
    else if r ≤ 7/10 + 2/10 + 1/10 then some (((hardRanked b player).getD 2 h).position)
    else some h.position

/-- An all-empty 15x15 board. -/
def emptyBoard : Board :=
  List.replicate BOARD_SIZE (List.replicate BOARD_SIZE (none : Cell))

/-- Four stones of the first player on row 7, columns 5 through 8, both
ends open. -/
def bOpen4 : Board :=
  placeStone (placeStone (placeStone (placeStone emptyBoard ⟨7, 5⟩ .one) ⟨7, 6⟩ .one)
    ⟨7, 7⟩ .one) ⟨7, 8⟩ .one

/-- Five stones of the first player on row 7, columns 5 through 9. -/
def bWin5 : Board := placeStone bOpen4 ⟨7, 9⟩ .one

/-- First player's stones flanking the empty cell (7,7): columns 5, 6, 8, 9
of row 7. -/
def bFlank : Board :=
  placeStone (placeStone (placeStone (placeStone emptyBoard ⟨7, 5⟩ .one) ⟨7, 6⟩ .one)
    ⟨7, 8⟩ .one) ⟨7, 9⟩ .one

/-- A single stone of the second player at the center. -/
def bOne : Board := placeStone emptyBoard ⟨7, 7⟩ .two

/-- The open four of `bOpen4` with its left end blocked by the second
player: the single winning completion for the first player is (7,9). -/
def bBlock4 : Board := placeStone bOpen4 ⟨7, 4⟩ .two

/-- A full board colored by parity of `row + col`. -/
def fullChecker : Board :=
  (List.range BOARD_SIZE).map fun r =>
    (List.range BOARD_SIZE).map fun c =>
      some (if (r + c) % 2 = 0 then Player.one else Player.two)

/-- The parity-colored board with the single cell (7,7) left empty. -/
def nearFullChecker : Board :=
  (List.range BOARD_SIZE).map fun r =>
    (List.range BOARD_SIZE).map fun c =>
      if r = 7 ∧ c = 7 then none
      else some (if (r + c) % 2 = 0 then Player.one else Player.two)

/-! Characterization of the directional scans. -/

lemma isValidPosition_iff {r c : Int} :
    isValidPosition r c = true ↔ 0 ≤ r ∧ r < 15 ∧ 0 ≤ c ∧ c < 15 := by
  simp [isValidPosition, BOARD_SIZE, and_assoc]

lemma four_directions_good : ∀ d ∈ FOUR_DIRECTIONS, goodDir d := by
  intro d hd
  simp only [FOUR_DIRECTIONS, List.mem_cons, List.not_mem_nil, or_false] at hd
  rcases hd with h | h | h | h <;> subst h <;> exact ⟨by decide, by decide, by decide⟩

lemma goodDir_neg {d : Direction} (h : goodDir d) : goodDir (-d.1, -d.2) := by
  obtain ⟨h1, h2, h3⟩ := h
  refine ⟨?_, ?_, ?_⟩ <;> simp [Int.natAbs_neg, h1, h2, h3]

lemma scanRun_succ (b : Board) (pl : Player) (d : Direction) (fuel : Nat) (r c : Int) :
    scanRun b pl d (fuel + 1) r c =
      if stoneCond b pl r c then
        ((⟨r, c⟩ : Position) :: (scanRun b pl d fuel (r + d.1) (c + d.2)).1,
          (scanRun b pl d fuel (r + d.1) (c + d.2)).2)
      else ([], r, c) := rfl

lemma scanRun_length_le (b : Board) (pl : Player) (d : Direction) :
    ∀ fuel r c, (scanRun b pl d fuel r c).1.length ≤ fuel := by
  intro fuel
  induction fuel with
  | zero => intro r c; simp [scanRun]
  | succ n ih =>
    intro r c
    rw [scanRun_succ]
    by_cases h : stoneCond b pl r c = true
    · simp only [h, if_true, List.length_cons]
      exact Nat.succ_le_succ (ih _ _)
    · simp [h]

lemma scanRun_stone (b : Board) (pl : Player) (d : Direction) :
    ∀ fuel r c i, i < (scanRun b pl d fuel r c).1.length →
      stoneCond b pl (r + (i : Int) * d.1) (c + (i : Int) * d.2) = true := by
  intro fuel
  induction fuel with
  | zero => intro r c i h; simp [scanRun] at h
  | succ n ih =>
    intro r c i h
    rw [scanRun_succ] at h
    by_cases hs : stoneCond b pl r c = true
    · simp only [hs, if_true, List.length_cons] at h
      match i with
      | 0 => simpa using hs
      | j + 1 =>
        have hj := ih (r + d.1) (c + d.2) j (by omega)
        have e1 : r + d.1 + (j : Int) * d.1 = r + ((j : Nat) + 1 : Int) * d.1 := by ring
        have e2 : c + d.2 + (j : Int) * d.2 = c + ((j : Nat) + 1 : Int) * d.2 := by ring
        rw [e1, e2] at hj
        convert hj using 3 <;> push_cast <;> ring
    · simp [hs] at h

lemma scanRun_final (b : Board) (pl : Player) (d : Direction) :
    ∀ fuel r c, (scanRun b pl d fuel r c).2 =
      (r + ((scanRun b pl d fuel r c).1.length : Int) * d.1,
        c + ((scanRun b pl d fuel r c).1.length : Int) * d.2) := by
  intro fuel
  induction fuel with
  | zero => intro r c; simp [scanRun]
  | succ n ih =>
    intro r c
    rw [scanRun_succ]
    by_cases hs : stoneCond b pl r c = true
    · simp only [hs, if_true, List.length_cons]
      rw [ih (r + d.1) (c + d.2)]
      simp only [Prod.mk.injEq]
      constructor <;> push_cast <;> ring
    · simp [hs]

lemma scanRun_stop (b : Board) (pl : Player) (d : Direction) :
    ∀ fuel r c, (scanRun b pl d fuel r c).1.length < fuel →
      stoneCond b pl (r + ((scanRun b pl d fuel r c).1.length : Int) * d.1)
        (c + ((scanRun b pl d fuel r c).1.length : Int) * d.2) = false := by
  intro fuel
  induction fuel with
  | zero => intro r c h; omega
  | succ n ih =>
    intro r c h
    rw [scanRun_succ] at h ⊢
    by_cases hs : stoneCond b pl r c = true
    · simp only [hs, if_true, List.length_cons] at h ⊢
      have hlt : (scanRun b pl d n (r + d.1) (c + d.2)).1.length < n := by omega
      have hstop := ih (r + d.1) (c + d.2) hlt
      have e1 : r + d.1 + ((scanRun b pl d n (r + d.1) (c + d.2)).1.length : Int) * d.1 =
          r + (((scanRun b pl d n (r + d.1) (c + d.2)).1.length : Int) + 1) * d.1 := by ring
      have e2 : c + d.2 + ((scanRun b pl d n (r + d.1) (c + d.2)).1.length : Int) * d.2 =
          c + (((scanRun b pl d n (r + d.1) (c + d.2)).1.length : Int) + 1) * d.2 := by ring
      rw [e1, e2] at hstop
      convert hstop using 3 <;> push_cast <;> ring
    · have hf : stoneCond b pl r c = false := by
        cases hval : stoneCond b pl r c with
        | true => exact absurd hval hs
        | false => rfl
      simp [hf]

lemma scanRun_list (b : Board) (pl : Player) (d : Direction) :
    ∀ fuel r c, (scanRun b pl d fuel r c).1 =
      (List.range (scanRun b pl d fuel r c).1.length).map
        fun i : Nat => (⟨r + (i : Int) * d.1, c + (i : Int) * d.2⟩ : Position) := by
  intro fuel
  induction fuel with
  | zero => intro r c; simp [scanRun]
  | succ n ih =>
    intro r c
    rw [scanRun_succ]
    by_cases hs : stoneCond b pl r c = true
    · simp only [hs, if_true, List.length_cons]
      rw [List.range_succ_eq_map, List.map_cons, List.map_map]
      refine congrArg₂ List.cons (by simp) ?_
      conv_lhs => rw [ih (r + d.1) (c + d.2)]
      refine List.map_congr_left fun i _ => ?_
      simp only [Function.comp_apply, Nat.succ_eq_add_one]
      refine congrArg₂ Position.mk ?_ ?_ <;> push_cast <;> ring
    · simp [hs]

lemma scanRun_fuel_congr (b : Board) (pl : Player) (d : Direction) :
    ∀ f1 r c f2, (scanRun b pl d f1 r c).1.length < f1 →
      (scanRun b pl d f1 r c).1.length < f2 →
      scanRun b pl d f2 r c = scanRun b pl d f1 r c := by
  intro f1
  induction f1 with
  | zero => intro r c f2 h1; omega
  | succ n ih =>
    intro r c f2 h1 h2
    obtain ⟨m, rfl⟩ : ∃ m, f2 = m + 1 := ⟨f2 - 1, by omega⟩
    rw [scanRun_succ] at h1 h2 ⊢
    rw [scanRun_succ]
    by_cases hs : stoneCond b pl r c = true
    · simp only [hs, if_true, List.length_cons] at h1 h2 ⊢
      rw [ih (r + d.1) (c + d.2) m (by omega) (by omega)]
    · simp [hs]

lemma scanRun_ge (b : Board) (pl : Player) (d : Direction) :
    ∀ fuel r c k, k ≤ fuel →
      (∀ i : Nat, i < k →
        stoneCond b pl (r + (i : Int) * d.1) (c + (i : Int) * d.2) = true) →
      k ≤ (scanRun b pl d fuel r c).1.length := by
  intro fuel
  induction fuel with
  | zero => intro r c k hk _; omega
  | succ n ih =>
    intro r c k hk hst
    match k with
    | 0 => omega
    | j + 1 =>
      have h0 := hst 0 (by omega)
      simp only [Nat.cast_zero, zero_mul, add_zero] at h0
      rw [scanRun_succ]
      simp only [h0, if_true, List.length_cons]
      have : j ≤ (scanRun b pl d n (r + d.1) (c + d.2)).1.length := by
        refine ih (r + d.1) (c + d.2) j (by omega) fun i hi => ?_
        have := hst (i + 1) (by omega)
        have e1 : r + ((i : Nat) + 1 : Int) * d.1 = r + d.1 + (i : Int) * d.1 := by ring
        have e2 : c + ((i : Nat) + 1 : Int) * d.2 = c + d.2 + (i : Int) * d.2 := by ring
        rw [show (((i + 1 : Nat)) : Int) = ((i : Nat) + 1 : Int) by push_cast; ring, e1, e2] at this
        exact this
      omega

lemma getCell_nonneg_eq (b : Board) {r c : Int} (h : 0 ≤ r ∧ 0 ≤ c) :
    getCell b r c = (b[r.toNat]?.getD [])[c.toNat]?.getD none := by
  simp [getCell, h, List.getD_eq_getElem?_getD]

lemma placeStone_cell_ne (b : Board) (pos : Position) (pl : Player) {r c : Int}
    (hne : ¬(r = pos.row ∧ c = pos.col)) :
    getCell (placeStone b pos pl) r c = getCell b r c := by
  unfold placeStone
  by_cases hv : isValidPosition pos.row pos.col = true
  · rw [if_pos hv]
    obtain ⟨hr0, hr1, hc0, hc1⟩ := isValidPosition_iff.mp hv
    by_cases hrc : 0 ≤ r ∧ 0 ≤ c
    · rw [getCell_nonneg_eq _ hrc, getCell_nonneg_eq _ hrc]
      by_cases hrow : pos.row.toNat = r.toNat
      · have hr : r = pos.row := by omega
        have hc : ¬(c = pos.col) := fun h => hne ⟨hr, h⟩
        have hcn : pos.col.toNat ≠ c.toNat := by omega
        rw [List.getElem?_set]
        by_cases hlen : pos.row.toNat < b.length
        · rw [if_pos hrow, if_pos hlen]
          simp only [Option.getD_some]
          rw [List.getElem?_set_ne hcn]
          have : b[r.toNat]? = some b[pos.row.toNat] := by
            rw [← hrow]
            exact List.getElem?_eq_getElem hlen
          rw [this]
          simp only [Option.getD_some]
          congr 1
          rw [List.getD_eq_getElem?_getD, List.getElem?_eq_getElem hlen]
          rfl
        · rw [if_pos hrow, if_neg hlen]
          have hnone : b[r.toNat]? = none := by
            rw [← hrow]
            exact List.getElem?_eq_none (by omega)
          rw [hnone]
      · rw [List.getElem?_set_ne hrow]
    · simp [getCell, hrc]
  · rw [if_neg hv]

lemma placeStone_cell_self (b : Board) (pos : Position) (pl : Player)
    (hwf : boardWF b) (hv : isValidPosition pos.row pos.col = true) :
    cellAt (placeStone b pos pl) pos = some pl := by
  obtain ⟨hr0, hr1, hc0, hc1⟩ := isValidPosition_iff.mp hv
  obtain ⟨hblen, hrows⟩ := hwf
  have hrlt : pos.row.toNat < b.length := by
    rw [hblen]; simp [BOARD_SIZE]; omega
  unfold cellAt
  unfold placeStone
  rw [if_pos hv, getCell_nonneg_eq _ ⟨hr0, hc0⟩]
  rw [List.getElem?_set_self hrlt]
  simp only [Option.getD_some]
  have hrowlen : (b.getD pos.row.toNat []).length = BOARD_SIZE := by
    rw [List.getD_eq_getElem _ _ hrlt]
    exact hrows _ (List.getElem_mem hrlt)
  have hclt : pos.col.toNat < (b.getD pos.row.toNat []).length := by
    rw [hrowlen]; simp [BOARD_SIZE]; omega
  rw [List.getElem?_set_self hclt]
  rfl

lemma placeStone_wf (b : Board) (pos : Position) (pl : Player) (hwf : boardWF b) :
    boardWF (placeStone b pos pl) := by
  obtain ⟨hblen, hrows⟩ := hwf
  unfold placeStone
  by_cases hv : isValidPosition pos.row pos.col = true
  · rw [if_pos hv]
    refine ⟨by rw [List.length_set]; exact hblen, fun row hrow => ?_⟩
    rcases List.mem_or_eq_of_mem_set hrow with h | h
    · exact hrows _ h
    · subst h
      rw [List.length_set]
      have hrlt : pos.row.toNat < b.length := by
        obtain ⟨hr0, hr1, _, _⟩ := isValidPosition_iff.mp hv
        rw [hblen]; simp [BOARD_SIZE]; omega
      rw [List.getD_eq_getElem _ _ hrlt]
      exact hrows _ (List.getElem_mem hrlt)
  · rw [if_neg hv]; exact ⟨hblen, hrows⟩

lemma scanRun_lt_fuel (b : Board) (pl : Player) {d : Direction} (hd : goodDir d)
    (r c : Int) : (scanRun b pl d SCAN_FUEL r c).1.length < SCAN_FUEL := by
  by_contra hcon
  have hle := scanRun_length_le b pl d SCAN_FUEL r c
  have heq : (scanRun b pl d SCAN_FUEL r c).1.length = 16 := by
    simp only [SCAN_FUEL] at hle hcon ⊢; omega
  have h0 := scanRun_stone b pl d SCAN_FUEL r c 0 (by omega)
  have h15 := scanRun_stone b pl d SCAN_FUEL r c 15 (by omega)
  simp only [stoneCond, Bool.and_eq_true] at h0 h15
  have v0 := isValidPosition_iff.mp h0.1
  have v15 := isValidPosition_iff.mp h15.1
  simp only [Nat.cast_zero, zero_mul, add_zero, Nat.cast_ofNat] at v0 v15
  obtain ⟨h1, h2, h3 | h3⟩ := hd
  · rcases Int.natAbs_eq_iff.mp h3 with hd1 | hd1 <;> rw [hd1] at v15 <;>
      simp only [Int.ofNat_eq_coe, Nat.cast_one] at v15 <;> omega
  · rcases Int.natAbs_eq_iff.mp h3 with hd2 | hd2 <;> rw [hd2] at v15 <;>
      simp only [Int.ofNat_eq_coe, Nat.cast_one] at v15 <;> omega

/-! Characterization of `checkWin`. -/

lemma countConsecutive_count (b : Board) (pos : Position) (d : Direction) (pl : Player) :
    (countConsecutive b pos d pl).1 = runLen b pos d pl := rfl

lemma checkWinAux_isWin_iff (b : Board) (pos : Position) (pl : Player) :
    ∀ ds, (checkWinAux b pos pl ds).isWin = true ↔
      ∃ d ∈ ds, WIN_LENGTH ≤ (countConsecutive b pos d pl).1 := by
  intro ds
  induction ds with
  | nil => simp [checkWinAux]
  | cons d rest ih =>
    rw [checkWinAux]
    by_cases h : WIN_LENGTH ≤ (countConsecutive b pos d pl).1
    · simp [h]
    · simp only [h, if_false, List.mem_cons]
      rw [ih]
      constructor
      · rintro ⟨e, he, hlen⟩; exact ⟨e, Or.inr he, hlen⟩
      · rintro ⟨e, he | he, hlen⟩
        · subst he; exact absurd hlen h
        · exact ⟨e, he, hlen⟩

lemma checkWin_isWin_iff (b : Board) (pos : Position) (pl : Player) :
    (checkWin b pos pl).isWin = true ↔
      ∃ d ∈ FOUR_DIRECTIONS, WIN_LENGTH ≤ runLen b pos d pl := by
  rw [checkWin, checkWinAux_isWin_iff]
  simp only [countConsecutive_count]

lemma checkWinAux_line (b : Board) (pos : Position) (pl : Player) :
    ∀ ds d, ds.find? (fun e => decide (WIN_LENGTH ≤ (countConsecutive b pos e pl).1)) =
        some d →
      checkWinAux b pos pl ds =
        ⟨true, some ((countConsecutive b pos d pl).2.take WIN_LENGTH)⟩ := by
  intro ds
  induction ds with
  | nil =>
    intro d h
    rw [List.find?_nil] at h
    exact Option.noConfusion h
  | cons e rest ih =>
    intro d h
    rw [checkWinAux]
    by_cases hc : WIN_LENGTH ≤ (countConsecutive b pos e pl).1
    · rw [List.find?_cons_of_pos _ (by simpa using hc)] at h
      simp only [Option.some.injEq] at h
      subst h
      rw [if_pos hc]
    · rw [List.find?_cons_of_neg _ (by simpa using hc)] at h
      rw [if_neg hc]
      exact ih d h

lemma reverse_map_range {α : Type} (g : Nat → α) :
    ∀ k, ((List.range k).map g).reverse = (List.range k).map fun i => g (k - 1 - i) := by
  intro k
  induction k with
  | zero => simp
  | succ n ih =>
    conv_lhs => rw [List.range_succ]
    conv_rhs => rw [List.range_succ_eq_map]
    rw [List.map_append, List.reverse_append]
    simp only [List.map_cons, List.map_nil, List.reverse_cons, List.reverse_nil,
      List.nil_append, List.singleton_append, List.map_map]
    rw [ih]
    refine congrArg₂ List.cons (by congr 1) ?_
    refine List.map_congr_left fun i hi => ?_
    simp only [Function.comp_apply, Nat.succ_eq_add_one]
    congr 1
    omega

lemma neg_pair_fst (d : Direction) : (-d.1, -d.2).1 = -d.1 := rfl

lemma neg_pair_snd (d : Direction) : (-d.1, -d.2).2 = -d.2 := rfl

lemma countConsecutive_positions (b : Board) (pos : Position) (d : Direction)
    (pl : Player) :
    (countConsecutive b pos d pl).2 =
      (List.range (runLen b pos d pl)).map
        fun i : Nat => stepP pos d ((i : Int) - (bwdExt b pos d pl : Int)) := by
  obtain ⟨pr, pc⟩ := pos
  have hfwd := scanRun_list b pl d SCAN_FUEL (pr + d.1) (pc + d.2)
  have hbwd := scanRun_list b pl (-d.1, -d.2) SCAN_FUEL (pr - d.1) (pc - d.2)
  have hrl : runLen b ⟨pr, pc⟩ d pl =
      bwdExt b ⟨pr, pc⟩ d pl + (1 + fwdExt b ⟨pr, pc⟩ d pl) := by
    rw [runLen]; omega
  show (scanRun b pl (-d.1, -d.2) SCAN_FUEL (pr - d.1) (pc - d.2)).1.reverse ++
      (⟨pr, pc⟩ : Position) :: (scanRun b pl d SCAN_FUEL (pr + d.1) (pc + d.2)).1 = _
  rw [hfwd, hbwd, hrl]
  have hK : (scanRun b pl (-d.1, -d.2) SCAN_FUEL (pr - d.1) (pc - d.2)).1.length =
      bwdExt b ⟨pr, pc⟩ d pl := rfl
  have hF : (scanRun b pl d SCAN_FUEL (pr + d.1) (pc + d.2)).1.length =
      fwdExt b ⟨pr, pc⟩ d pl := rfl
  rw [hK, hF, reverse_map_range, List.range_add, List.map_append, List.map_map]
  rw [Nat.add_comm 1 (fwdExt b ⟨pr, pc⟩ d pl), List.range_succ_eq_map, List.map_cons,
    List.map_map]
  refine congrArg₂ List.append ?_ (congrArg₂ List.cons ?_ ?_)
  · refine List.map_congr_left fun i hi => ?_
    have hik := List.mem_range.mp hi
    have hcast : ((bwdExt b ⟨pr, pc⟩ d pl - 1 - i : Nat) : Int) =
        (bwdExt b ⟨pr, pc⟩ d pl : Int) - 1 - (i : Int) := by omega
    simp only [stepP, neg_pair_fst, neg_pair_snd]
    refine congrArg₂ Position.mk ?_ ?_ <;> rw [hcast] <;> ring
  · simp only [Function.comp_apply, stepP, Nat.add_zero]
    refine congrArg₂ Position.mk ?_ ?_ <;> push_cast <;> ring
  · refine List.map_congr_left fun i hi => ?_
    simp only [Function.comp_apply, stepP, Nat.succ_eq_add_one]
    refine congrArg₂ Position.mk ?_ ?_ <;> push_cast <;> ring

lemma scanRun_congr_board {b b' : Board} (pl : Player) (d : Direction) (x y : Int)
    (hb : ∀ r c, ¬(r = x ∧ c = y) → getCell b' r c = getCell b r c) :
    ∀ fuel r c, (∀ i : Nat, ¬(r + (i : Int) * d.1 = x ∧ c + (i : Int) * d.2 = y)) →
      scanRun b' pl d fuel r c = scanRun b pl d fuel r c := by
  intro fuel
  induction fuel with
  | zero => intro r c _; rfl
  | succ n ih =>
    intro r c havoid
    have h0 : ¬(r = x ∧ c = y) := by
      have := havoid 0
      simpa using this
    have hcell : getCell b' r c = getCell b r c := hb r c h0
    have hcond : stoneCond b' pl r c = stoneCond b pl r c := by
      rw [stoneCond, stoneCond, hcell]
    rw [scanRun_succ, scanRun_succ, hcond]
    by_cases hs : stoneCond b pl r c = true
    · rw [if_pos hs, if_pos hs]
      rw [ih (r + d.1) (c + d.2) fun i hcon => ?_]
      obtain ⟨h1, h2⟩ := hcon
      refine havoid (i + 1) ⟨?_, ?_⟩ <;> push_cast <;> push_cast at h1 h2 <;> linarith
    · rw [if_neg hs, if_neg hs]

lemma avoid_center {pos : Position} {d : Direction} (hd : goodDir d) :
    ∀ i : Nat, ¬(pos.row + d.1 + (i : Int) * d.1 = pos.row ∧
      pos.col + d.2 + (i : Int) * d.2 = pos.col) := by
  rintro i ⟨h1, h2⟩
  have e1 : ((i : Int) + 1) * d.1 = 0 := by linarith
  have e2 : ((i : Int) + 1) * d.2 = 0 := by linarith
  have hi : (0 : Int) < (i : Int) + 1 := by positivity
  rcases hd.2.2 with h | h
  · rcases Int.natAbs_eq_iff.mp h with hd1 | hd1 <;> rw [hd1] at e1 <;>
      simp only [Int.ofNat_eq_coe, Nat.cast_one, mul_one, mul_neg] at e1 <;> omega
  · rcases Int.natAbs_eq_iff.mp h with hd2 | hd2 <;> rw [hd2] at e2 <;>
      simp only [Int.ofNat_eq_coe, Nat.cast_one, mul_one, mul_neg] at e2 <;> omega

lemma countConsecutive_place_center (b : Board) (pos : Position) (q pl : Player)
    {d : Direction} (hd : goodDir d) :
    countConsecutive (placeStone b pos q) pos d pl = countConsecutive b pos d pl := by
  have hb : ∀ r c, ¬(r = pos.row ∧ c = pos.col) →
      getCell (placeStone b pos q) r c = getCell b r c :=
    fun r c h => placeStone_cell_ne b pos q h
  unfold countConsecutive
  rw [scanRun_congr_board pl d pos.row pos.col hb SCAN_FUEL (pos.row + d.1)
    (pos.col + d.2) (avoid_center hd)]
  rw [scanRun_congr_board pl (-d.1, -d.2) pos.row pos.col hb SCAN_FUEL (pos.row - d.1)
    (pos.col - d.2) ?_]
  have hneg := @avoid_center pos (-d.1, -d.2) (goodDir_neg hd)
  intro i
  have := hneg i
  simpa [neg_pair_fst, neg_pair_snd, sub_eq_add_neg] using this

lemma checkWinAux_congr (b b' : Board) (pos : Position) (pl : Player) :
    ∀ ds, (∀ d ∈ ds, countConsecutive b' pos d pl = countConsecutive b pos d pl) →
      checkWinAux b' pos pl ds = checkWinAux b pos pl ds := by
  intro ds
  induction ds with
  | nil => intro _; rfl
  | cons d rest ih =>
    intro h
    rw [checkWinAux, checkWinAux, h d (List.mem_cons_self d rest),
      ih fun e he => h e (List.mem_cons_of_mem d he)]

lemma checkWin_place_center (b : Board) (pos : Position) (q pl : Player) :
    checkWin (placeStone b pos q) pos pl = checkWin b pos pl := by
  rw [checkWin, checkWin]
  exact checkWinAux_congr b (placeStone b pos q) pos pl FOUR_DIRECTIONS
    fun d hd => countConsecutive_place_center b pos q pl (four_directions_good d hd)

lemma mem_insertUnique (acc : List Position) (x p : Position) :
    p ∈ insertUnique acc x ↔ p ∈ acc ∨ p = x := by
  rw [insertUnique]
  split_ifs with h
  · constructor
    · exact Or.inl
    · rintro (hp | rfl)
      · exact hp
      · exact h
  · simp [List.mem_append]

lemma mem_foldl_insertUnique :
    ∀ (l acc : List Position) (p : Position),
      p ∈ l.foldl insertUnique acc ↔ p ∈ acc ∨ p ∈ l := by
  intro l
  induction l with
  | nil => simp
  | cons x t ih =>
    intro acc p
    rw [List.foldl_cons, ih, mem_insertUnique, List.mem_cons]
    tauto

lemma nodup_insertUnique (acc : List Position) (x : Position) (h : acc.Nodup) :
    (insertUnique acc x).Nodup := by
  rw [insertUnique]
  split_ifs with hmem
  · exact h
  · rw [List.nodup_append]
    exact ⟨h, List.nodup_singleton x, by simpa using hmem⟩

lemma nodup_foldl_insertUnique :
    ∀ (l acc : List Position), acc.Nodup → (l.foldl insertUnique acc).Nodup := by
  intro l
  induction l with
  | nil => intro acc h; exact h
  | cons x t ih => intro acc h; exact ih _ (nodup_insertUnique acc x h)

lemma mem_offsetList {range : Nat} {x : Int} :
    x ∈ offsetList range ↔ -(range : Int) ≤ x ∧ x ≤ range := by
  rw [offsetList]
  simp only [List.mem_map, List.mem_range]
  constructor
  · rintro ⟨i, hi, rfl⟩
    omega
  · rintro ⟨h1, h2⟩
    exact ⟨(x + range).toNat, by omega, by omega⟩

lemma countPieces_step_foldl :
    ∀ (l : List Cell) (a b : Nat),
      l.foldl (fun acc cell =>
        match cell with
        | some .one => (acc.1 + 1, acc.2)
        | some .two => (acc.1, acc.2 + 1)
        | none => acc) (a, b) =
      (a + l.countP (fun cell => cell == some Player.one),
        b + l.countP (fun cell => cell == some Player.two)) := by
  intro l
  induction l with
  | nil => simp
  | cons c t ih =>
    intro a b
    rw [List.foldl_cons]
    cases c with
    | none =>
      rw [ih]
      simp [List.countP_cons]
    | some pl =>
      cases pl <;> rw [ih] <;> simp [List.countP_cons] <;> omega

lemma countPieces_zero_iff (b : Board) :
    ((countPieces b).1 = 0 ∧ (countPieces b).2 = 0) ↔ noStones b := by
  rw [countPieces, countPieces_step_foldl]
  simp only [Nat.zero_add, List.countP_eq_zero, beq_iff_eq]
  constructor
  · rintro ⟨h1, h2⟩ r hr c hc
    have hm : getCell b r c ∈
        (List.range BOARD_SIZE).flatMap fun row : Nat =>
          (List.range BOARD_SIZE).map fun col : Nat => getCell b row col := by
      simp only [List.mem_flatMap, List.mem_map, List.mem_range]
      exact ⟨r, hr, c, hc, rfl⟩
    have hn1 := h1 _ hm
    have hn2 := h2 _ hm
    cases hcell : getCell b (r : Int) (c : Int) with
    | none => rfl
    | some pl =>
      rw [hcell] at hn1 hn2
      cases pl
      · exact absurd rfl hn1
      · exact absurd rfl hn2
  · intro h
    constructor <;> intro cell hm <;>
      · simp only [List.mem_flatMap, List.mem_map, List.mem_range] at hm
        obtain ⟨r, hr, c, hc, rfl⟩ := hm
        rw [h r hr c hc]
        simp

lemma find?_congr {α : Type} {p q : α → Bool} :
    ∀ l : List α, (∀ x ∈ l, p x = q x) → l.find? p = l.find? q := by
  intro l
  induction l with
  | nil => intro _; rfl
  | cons x t ih =>
    intro h
    rw [List.find?_cons, List.find?_cons, h x (List.mem_cons_self x t),
      ih fun y hy => h y (List.mem_cons_of_mem x hy)]

lemma exists_first_max {α : Type} (f : α → ℚ) :
    ∀ l : List α, l ≠ [] → ∃ m ∈ l, ∀ q ∈ l, f q ≤ f m := by
  intro l
  induction l with
  | nil => intro h; exact absurd rfl h
  | cons x t ih =>
    intro _
    cases t with
    | nil => exact ⟨x, List.mem_cons_self x [], by simp⟩
    | cons y s =>
      obtain ⟨m, hm, hmax⟩ := ih (by simp)
      by_cases hc : f x ≤ f m
      · refine ⟨m, List.mem_cons_of_mem x hm, fun q hq => ?_⟩
        rcases List.mem_cons.mp hq with rfl | hq
        · exact hc
        · exact hmax q hq
      · refine ⟨x, List.mem_cons_self x (y :: s), fun q hq => ?_⟩
        rcases List.mem_cons.mp hq with rfl | hq
        · exact le_refl _
        · exact le_trans (hmax q hq) (le_of_not_le hc)

lemma mediumBestStep_fold (b : Board) (pl : Player) :
    ∀ (l : List Position) (bs : ℚ) (bp : Position),
      l.foldl (mediumBestStep b pl) (some (bs, bp)) =
        match l.find? (fun m => decide (bs < mediumTotalScore b pl m) &&
            l.all fun q => decide (mediumTotalScore b pl q ≤ mediumTotalScore b pl m)) with
        | some m => some (mediumTotalScore b pl m, m)
        | none => some (bs, bp) := by
  intro l
  induction l with
  | nil => intro bs bp; rfl
  | cons x t ih =>
    intro bs bp
    rw [List.foldl_cons]
    by_cases hlt : bs < mediumTotalScore b pl x
    · have hstep : mediumBestStep b pl (some (bs, bp)) x =
          some (mediumTotalScore b pl x, x) := by
        rw [mediumBestStep]
        simp [hlt]
      rw [hstep, ih]
      by_cases hall : ∀ q ∈ t, mediumTotalScore b pl q ≤ mediumTotalScore b pl x
      · have hfx : List.find? (fun m => decide (bs < mediumTotalScore b pl m) &&
            (x :: t).all fun q => decide (mediumTotalScore b pl q ≤ mediumTotalScore b pl m))
            (x :: t) = some x := by
          refine List.find?_cons_of_pos _ ?_
          simp only [Bool.and_eq_true, decide_eq_true_eq, List.all_eq_true,
            decide_eq_true_eq]
          exact ⟨hlt, fun q hq => by
            rcases List.mem_cons.mp hq with rfl | hq
            · exact le_refl _
            · exact hall q hq⟩
        rw [hfx]
        have hnone : List.find? (fun m => decide (mediumTotalScore b pl x <
            mediumTotalScore b pl m) &&
            t.all fun q => decide (mediumTotalScore b pl q ≤ mediumTotalScore b pl m))
            t = none := by
          rw [List.find?_eq_none]
          intro m hm
          simp only [Bool.and_eq_true, decide_eq_true_eq, List.all_eq_true,
            decide_eq_true_eq, not_and]
          intro hgt
          exact absurd (hall m hm) (not_le.mpr hgt)
        rw [hnone]
      · push_neg at hall
        obtain ⟨w, hw, hwgt'⟩ := hall
        have hfx : List.find? (fun m => decide (bs < mediumTotalScore b pl m) &&
            (x :: t).all fun q => decide (mediumTotalScore b pl q ≤ mediumTotalScore b pl m))
            (x :: t) =
            List.find? (fun m => decide (bs < mediumTotalScore b pl m) &&
              (x :: t).all fun q => decide (mediumTotalScore b pl q ≤ mediumTotalScore b pl m))
            t := by
          refine List.find?_cons_of_neg _ ?_
          simp only [Bool.and_eq_true, decide_eq_true_eq, List.all_eq_true,
            decide_eq_true_eq, not_and]
          intro _ hle
          exact absurd (hle w (List.mem_cons_of_mem x hw)) (not_le.mpr hwgt')
        rw [hfx]
        have hcongr : List.find? (fun m => decide (mediumTotalScore b pl x <
              mediumTotalScore b pl m) &&
              t.all fun q => decide (mediumTotalScore b pl q ≤ mediumTotalScore b pl m)) t =
            List.find? (fun m => decide (bs < mediumTotalScore b pl m) &&
              (x :: t).all fun q => decide (mediumTotalScore b pl q ≤ mediumTotalScore b pl m))
            t := by
          refine find?_congr t fun m hm => ?_
          rw [Bool.eq_iff_iff]
          simp only [Bool.and_eq_true, decide_eq_true_eq, List.all_eq_true,
            decide_eq_true_eq, List.mem_cons]
          by_cases hmax : ∀ q ∈ t, mediumTotalScore b pl q ≤ mediumTotalScore b pl m
          · have hxm : mediumTotalScore b pl x < mediumTotalScore b pl m :=
              lt_of_lt_of_le hwgt' (hmax w hw)
            constructor
            · rintro ⟨_, hle⟩
              exact ⟨lt_trans hlt hxm, fun q hq => by
                rcases hq with rfl | hq
                · exact le_of_lt hxm
                · exact hle q hq⟩
            · rintro ⟨_, hle⟩
              exact ⟨hxm, fun q hq => hle q (Or.inr hq)⟩
          · push_neg at hmax
            obtain ⟨v, hv, hvgt⟩ := hmax
            constructor
            · rintro ⟨_, hle⟩
              exact absurd (hle v hv) (not_le.mpr hvgt)
            · rintro ⟨_, hle⟩
              exact absurd (hle v (Or.inr hv)) (not_le.mpr hvgt)
        rw [← hcongr]
        obtain ⟨mx, hmx, hmax'⟩ := exists_first_max (mediumTotalScore b pl) t
          (List.ne_nil_of_mem hw)
        have hsome : (List.find? (fun m => decide (mediumTotalScore b pl x <
            mediumTotalScore b pl m) &&
            t.all fun q => decide (mediumTotalScore b pl q ≤ mediumTotalScore b pl m))
            t).isSome := by
          rw [List.find?_isSome]
          refine ⟨mx, hmx, ?_⟩
          simp only [Bool.and_eq_true, decide_eq_true_eq, List.all_eq_true,
            decide_eq_true_eq]
          exact ⟨lt_of_lt_of_le hwgt' (hmax' w hw), hmax'⟩
        obtain ⟨m', hm'⟩ := Option.isSome_iff_exists.mp hsome
        rw [hm']
    · have hstep : mediumBestStep b pl (some (bs, bp)) x = some (bs, bp) := by
        rw [mediumBestStep]
        simp [hlt]
      rw [hstep, ih]
      have hcongr : List.find? (fun m => decide (bs < mediumTotalScore b pl m) &&
            t.all fun q => decide (mediumTotalScore b pl q ≤ mediumTotalScore b pl m)) t =
          List.find? (fun m => decide (bs < mediumTotalScore b pl m) &&
            (x :: t).all fun q => decide (mediumTotalScore b pl q ≤ mediumTotalScore b pl m))
          t := by
        refine find?_congr t fun m hm => ?_
        rw [Bool.eq_iff_iff]
        simp only [Bool.and_eq_true, decide_eq_true_eq, List.all_eq_true,
          decide_eq_true_eq, List.mem_cons]
        constructor
        · rintro ⟨hgt, hle⟩
          exact ⟨hgt, fun q hq => by
            rcases hq with rfl | hq
            · exact le_trans (le_of_not_lt hlt) (le_of_lt hgt)
            · exact hle q hq⟩
        · rintro ⟨hgt, hle⟩
          exact ⟨hgt, fun q hq => hle q (Or.inr hq)⟩
      have hneg : List.find? (fun m => decide (bs < mediumTotalScore b pl m) &&
            (x :: t).all fun q => decide (mediumTotalScore b pl q ≤ mediumTotalScore b pl m))
          (x :: t) =
          List.find? (fun m => decide (bs < mediumTotalScore b pl m) &&
            (x :: t).all fun q => decide (mediumTotalScore b pl q ≤ mediumTotalScore b pl m))
          t := by
        refine List.find?_cons_of_neg _ ?_
        simp only [Bool.and_eq_true, decide_eq_true_eq, not_and]
        intro hgt
        exact absurd hgt hlt
      rw [hneg, ← hcongr]

lemma medium_fold_none_eq_firstMaxBy (b : Board) (pl : Player) :
    ∀ l : List Position,
      (l.foldl (mediumBestStep b pl) none).map (fun best => best.2) =
        firstMaxBy l (mediumTotalScore b pl) := by
  intro l
  cases l with
  | nil => rfl
  | cons x t =>
    rw [List.foldl_cons]
    have hstep0 : mediumBestStep b pl none x = some (mediumTotalScore b pl x, x) := rfl
    rw [hstep0, mediumBestStep_fold, firstMaxBy]
    by_cases hall : ∀ q ∈ t, mediumTotalScore b pl q ≤ mediumTotalScore b pl x
    · have h1 : List.find? (fun m => decide (mediumTotalScore b pl x <
          mediumTotalScore b pl m) && t.all fun q =>
          decide (mediumTotalScore b pl q ≤ mediumTotalScore b pl m)) t = none := by
        rw [List.find?_eq_none]
        intro m hm
        simp only [Bool.and_eq_true, decide_eq_true_eq, List.all_eq_true,
          decide_eq_true_eq, not_and]
        intro hgt
        exact absurd (hall m hm) (not_le.mpr hgt)
      rw [h1]
      have h2 : List.find? (fun p => (x :: t).all fun q =>
          decide (mediumTotalScore b pl q ≤ mediumTotalScore b pl p)) (x :: t) =
          some x := by
        refine List.find?_cons_of_pos _ ?_
        simp only [List.all_eq_true, decide_eq_true_eq]
        intro q hq
        rcases List.mem_cons.mp hq with rfl | hq
        · exact le_refl _
        · exact hall q hq
      rw [h2]
      rfl
    · push_neg at hall
      obtain ⟨w, hw, hwgt'⟩ := hall
      have hskip : List.find? (fun p => (x :: t).all fun q =>
          decide (mediumTotalScore b pl q ≤ mediumTotalScore b pl p)) (x :: t) =
          List.find? (fun p => (x :: t).all fun q =>
            decide (mediumTotalScore b pl q ≤ mediumTotalScore b pl p)) t := by
        refine List.find?_cons_of_neg _ ?_
        simp only [List.all_eq_true, decide_eq_true_eq, not_forall]
        exact ⟨w, List.mem_cons_of_mem x hw, fun hle => absurd hle (not_le.mpr hwgt')⟩
      rw [hskip]
      have hcongr : List.find? (fun m => decide (mediumTotalScore b pl x <
            mediumTotalScore b pl m) && t.all fun q =>
            decide (mediumTotalScore b pl q ≤ mediumTotalScore b pl m)) t =
          List.find? (fun p => (x :: t).all fun q =>
            decide (mediumTotalScore b pl q ≤ mediumTotalScore b pl p)) t := by
        refine find?_congr t fun m hm => ?_
        rw [Bool.eq_iff_iff]
        simp only [Bool.and_eq_true, decide_eq_true_eq, List.all_eq_true,
          decide_eq_true_eq, List.mem_cons]
        by_cases hmax : ∀ q ∈ t, mediumTotalScore b pl q ≤ mediumTotalScore b pl m
        · have hxm := lt_of_lt_of_le hwgt' (hmax w hw)
          constructor
          · rintro ⟨_, hle⟩ q hq
            rcases hq with rfl | hq
            · exact le_of_lt hxm
            · exact hle q hq
          · intro hle
            exact ⟨hxm, fun q hq => hle q (Or.inr hq)⟩
        · push_neg at hmax
          obtain ⟨v, hv, hvgt⟩ := hmax
          constructor
          · rintro ⟨_, hle⟩
            exact absurd (hle v hv) (not_le.mpr hvgt)
          · intro hle
            exact absurd (hle v (Or.inr hv)) (not_le.mpr hvgt)
      rw [← hcongr]
      obtain ⟨mx, hmx, hmax'⟩ := exists_first_max (mediumTotalScore b pl) t
        (List.ne_nil_of_mem hw)
      have hsome : (List.find? (fun m => decide (mediumTotalScore b pl x <
          mediumTotalScore b pl m) && t.all fun q =>
          decide (mediumTotalScore b pl q ≤ mediumTotalScore b pl m)) t).isSome := by
        rw [List.find?_isSome]
        refine ⟨mx, hmx, ?_⟩
        simp only [Bool.and_eq_true, decide_eq_true_eq, List.all_eq_true,
          decide_eq_true_eq]
        exact ⟨lt_of_lt_of_le hwgt' (hmax' w hw), hmax'⟩
      obtain ⟨m', hm'⟩ := Option.isSome_iff_exists.mp hsome
      rw [hm']
      rfl

lemma insertDesc_perm (x : ThreatEvaluation) :
    ∀ l, (insertDesc x l).Perm (x :: l) := by
  intro l
  induction l with
  | nil => exact List.Perm.refl _
  | cons y ys ih =>
    rw [insertDesc]
    split_ifs with h
    · exact (ih.cons y).trans (List.Perm.swap x y ys)
    · exact List.Perm.refl _

lemma sortDesc_perm_aux :
    ∀ (l acc : List ThreatEvaluation),
      (l.foldl (fun a x => insertDesc x a) acc).Perm (acc ++ l) := by
  intro l
  induction l with
  | nil => intro acc; simp
  | cons x t ih =>
    intro acc
    rw [List.foldl_cons]
    refine (ih (insertDesc x acc)).trans ?_
    refine (List.Perm.append_right t (insertDesc_perm x acc)).trans ?_
    exact List.perm_middle.symm

lemma sortDesc_perm (l : List ThreatEvaluation) : (sortDesc l).Perm l := by
  have := sortDesc_perm_aux l []
  simpa [sortDesc] using this

lemma insertDesc_pairwise (x : ThreatEvaluation) :
    ∀ l, l.Pairwise (fun a b => b.totalScore ≤ a.totalScore) →
      (insertDesc x l).Pairwise (fun a b => b.totalScore ≤ a.totalScore) := by
  intro l
  induction l with
  | nil => intro _; simp [insertDesc]
  | cons y ys ih =>
    intro h
    rw [List.pairwise_cons] at h
    obtain ⟨hy, hys⟩ := h
    rw [insertDesc]
    split_ifs with hc
    · rw [List.pairwise_cons]
      refine ⟨fun a ha => ?_, ih hys⟩
      rcases List.mem_cons.mp ((insertDesc_perm x ys).mem_iff.mp ha) with rfl | ha
      · exact hc
      · exact hy a ha
    · rw [List.pairwise_cons]
      refine ⟨fun a ha => ?_, List.pairwise_cons.mpr ⟨hy, hys⟩⟩
      rcases List.mem_cons.mp ha with rfl | ha
      · exact le_of_lt (not_le.mp hc)
      · exact le_trans (hy a ha) (le_of_lt (not_le.mp hc))

lemma sortDesc_pairwise_aux :
    ∀ (l acc : List ThreatEvaluation),
      acc.Pairwise (fun a b => b.totalScore ≤ a.totalScore) →
      (l.foldl (fun a x => insertDesc x a) acc).Pairwise
        (fun a b => b.totalScore ≤ a.totalScore) := by
  intro l
  induction l with
  | nil => intro acc h; exact h
  | cons x t ih => intro acc h; exact ih _ (insertDesc_pairwise x acc h)

lemma sortDesc_pairwise (l : List ThreatEvaluation) :
    (sortDesc l).Pairwise (fun a b => b.totalScore ≤ a.totalScore) :=
  sortDesc_pairwise_aux l [] List.Pairwise.nil

lemma pickWeighted_mem (r : ℚ) :
    ∀ (ts : List ThreatEvaluation) (ws : List ℚ) (cum : ℚ) (p : Position),
      pickWeighted r ts ws cum = some p → ∃ t ∈ ts, p = t.position := by
  intro ts
  induction ts with
  | nil => intro ws cum p h; cases ws <;> exact Option.noConfusion h
  | cons t rest ih =>
    intro ws cum p h
    cases ws with
    | nil => exact Option.noConfusion h
    | cons w ws' =>
      rw [pickWeighted] at h
      split_ifs at h with hc
      · exact ⟨t, List.mem_cons_self t rest, (Option.some.inj h).symm⟩
      · obtain ⟨u, hu, hp⟩ := ih ws' _ p h
        exact ⟨u, List.mem_cons_of_mem t hu, hp⟩

lemma evalThreat_position (b : Board) (pl : Player) (pos : Position) :
    (evalThreat b pl pos).position = pos := rfl

lemma getHardMove_mem (b : Board) (pl : Player) (r : ℚ) (p : Position)
    (h : getHardMove b pl r = some p) :
    p ∈ getRelevantPositions b AI_MEDIUM_HARD_SEARCH_RANGE := by
  simp only [getHardMove] at h
  by_cases hemp : (getRelevantPositions b AI_MEDIUM_HARD_SEARCH_RANGE).isEmpty
  · rw [if_pos hemp] at h
    exact Option.noConfusion h
  · rw [if_neg hemp] at h
    have hmem_of : ∀ t : ThreatEvaluation,
        t ∈ sortDesc ((getRelevantPositions b AI_MEDIUM_HARD_SEARCH_RANGE).map
          (evalThreat b pl)) →
        t.position ∈ getRelevantPositions b AI_MEDIUM_HARD_SEARCH_RANGE := by
      intro t ht
      have := (sortDesc_perm _).mem_iff.mp ht
      obtain ⟨c, hc, rfl⟩ := List.mem_map.mp this
      rw [evalThreat_position]
      exact hc
    cases hpick : pickWeighted r ((sortDesc ((getRelevantPositions b
        AI_MEDIUM_HARD_SEARCH_RANGE).map (evalThreat b pl))).take
        AI_HARD_TOP_MOVES_COUNT) AI_HARD_MOVE_WEIGHTS 0 with
    | some q =>
      rw [hpick] at h
      obtain rfl : q = p := Option.some.inj h
      obtain ⟨t, ht, rfl⟩ := pickWeighted_mem r _ _ _ _ hpick
      exact hmem_of t (List.mem_of_mem_take ht)
    | none =>
      rw [hpick] at h
      obtain ⟨e, he, rfl⟩ := Option.map_eq_some'.mp h
      exact hmem_of e (List.mem_of_mem_head? he)

lemma getHardMove_none_iff (b : Board) (pl : Player) (r : ℚ) :
    getHardMove b pl r = none ↔
      getRelevantPositions b AI_MEDIUM_HARD_SEARCH_RANGE = [] := by
  simp only [getHardMove]
  by_cases hemp : (getRelevantPositions b AI_MEDIUM_HARD_SEARCH_RANGE).isEmpty
  · rw [if_pos hemp]
    simp [List.isEmpty_iff.mp hemp]
  · rw [if_neg hemp]
    have hne : getRelevantPositions b AI_MEDIUM_HARD_SEARCH_RANGE ≠ [] := by
      intro hcon
      exact hemp (by simp [hcon])
    constructor
    · intro h
      cases hpick : pickWeighted r ((sortDesc ((getRelevantPositions b
          AI_MEDIUM_HARD_SEARCH_RANGE).map (evalThreat b pl))).take
          AI_HARD_TOP_MOVES_COUNT) AI_HARD_MOVE_WEIGHTS 0 with
      | some q => rw [hpick] at h; exact Option.noConfusion h
      | none =>
        rw [hpick] at h
        cases hsd : sortDesc ((getRelevantPositions b
            AI_MEDIUM_HARD_SEARCH_RANGE).map (evalThreat b pl)) with
        | nil =>
          have hlen := (sortDesc_perm ((getRelevantPositions b
              AI_MEDIUM_HARD_SEARCH_RANGE).map (evalThreat b pl))).length_eq
          rw [hsd] at hlen
          simp only [List.length_nil, List.length_map] at hlen
          exact absurd (List.length_eq_zero.mp hlen.symm) hne
        | cons e rest =>
          rw [hsd] at h
          simp at h
    · intro h
      exact absurd h hne

lemma mediumBestStep_some (b : Board) (pl : Player) (v : ℚ × Position) (x : Position) :
    (mediumBestStep b pl (some v) x).isSome := by
  obtain ⟨bs, bp⟩ := v
  rw [mediumBestStep]
  split_ifs <;> rfl

lemma medium_fold_isSome (b : Board) (pl : Player) :
    ∀ (l : List Position) (acc : Option (ℚ × Position)), acc.isSome →
      (l.foldl (mediumBestStep b pl) acc).isSome := by
  intro l
  induction l with
  | nil => intro acc h; exact h
  | cons x t ih =>
    intro acc h
    rw [List.foldl_cons]
    obtain ⟨v, rfl⟩ := Option.isSome_iff_exists.mp h
    exact ih _ (mediumBestStep_some b pl v x)

lemma medium_fold_mem (b : Board) (pl : Player) :
    ∀ (l : List Position) (acc : Option (ℚ × Position)) (s : ℚ) (q : Position),
      l.foldl (mediumBestStep b pl) acc = some (s, q) →
      acc = some (s, q) ∨ q ∈ l := by
  intro l
  induction l with
  | nil => intro acc s q h; exact Or.inl h
  | cons x t ih =>
    intro acc s q h
    rw [List.foldl_cons] at h
    rcases ih _ s q h with hacc | hmem
    · cases acc with
      | none =>
        rw [mediumBestStep] at hacc
        have hx : q = x := (congrArg Prod.snd (Option.some.inj hacc)).symm
        subst hx
        exact Or.inr (List.mem_cons_self q t)
      | some v =>
        obtain ⟨bs, bp⟩ := v
        rw [mediumBestStep] at hacc
        split_ifs at hacc
        · have hx : q = x := (congrArg Prod.snd (Option.some.inj hacc)).symm
          subst hx
          exact Or.inr (List.mem_cons_self q t)
        · exact Or.inl hacc
    · exact Or.inr (List.mem_cons_of_mem x hmem)

lemma getMediumMove_mem (b : Board) (pl : Player) (p : Position)
    (h : getMediumMove b pl = some p) :
    p ∈ getRelevantPositions b AI_MEDIUM_HARD_SEARCH_RANGE := by
  simp only [getMediumMove] at h
  by_cases hemp : (getRelevantPositions b AI_MEDIUM_HARD_SEARCH_RANGE).isEmpty
  · rw [if_pos hemp] at h
    exact Option.noConfusion h
  · rw [if_neg hemp] at h
    cases hw1 : (getRelevantPositions b AI_MEDIUM_HARD_SEARCH_RANGE).find?
        (fun pos => winsAt b pos pl) with
    | some w =>
      rw [hw1] at h
      obtain rfl := Option.some.inj h
      exact List.mem_of_find?_eq_some hw1
    | none =>
      rw [hw1] at h
      cases hw2 : (getRelevantPositions b AI_MEDIUM_HARD_SEARCH_RANGE).find?
          (fun pos => winsAt b pos pl.other) with
      | some w =>
        rw [hw2] at h
        obtain rfl := Option.some.inj h
        exact List.mem_of_find?_eq_some hw2
      | none =>
        rw [hw2] at h
        obtain ⟨⟨s, q⟩, hfold, rfl⟩ := Option.map_eq_some'.mp h
        rcases medium_fold_mem b pl _ none s q hfold with hcon | hmem
        · exact Option.noConfusion hcon
        · exact hmem

lemma getMediumMove_none_iff (b : Board) (pl : Player) :
    getMediumMove b pl = none ↔
      getRelevantPositions b AI_MEDIUM_HARD_SEARCH_RANGE = [] := by
  simp only [getMediumMove]
  by_cases hemp : (getRelevantPositions b AI_MEDIUM_HARD_SEARCH_RANGE).isEmpty
  · rw [if_pos hemp]
    simp [List.isEmpty_iff.mp hemp]
  · rw [if_neg hemp]
    have hne : getRelevantPositions b AI_MEDIUM_HARD_SEARCH_RANGE ≠ [] :=
      fun hcon => hemp (by simp [hcon])
    constructor
    · intro h
      exfalso
      cases hw1 : (getRelevantPositions b AI_MEDIUM_HARD_SEARCH_RANGE).find?
          (fun pos => winsAt b pos pl) with
      | some w => rw [hw1] at h; exact Option.noConfusion h
      | none =>
        rw [hw1] at h
        cases hw2 : (getRelevantPositions b AI_MEDIUM_HARD_SEARCH_RANGE).find?
            (fun pos => winsAt b pos pl.other) with
        | some w => rw [hw2] at h; exact Option.noConfusion h
        | none =>
          rw [hw2] at h
          cases hcand : getRelevantPositions b AI_MEDIUM_HARD_SEARCH_RANGE with
          | nil => exact hne hcand
          | cons x t =>
            rw [hcand, List.foldl_cons] at h
            have hsome : (t.foldl (mediumBestStep b pl)
                (mediumBestStep b pl none x)).isSome :=
              medium_fold_isSome b pl t _ rfl
            obtain ⟨v, hv⟩ := Option.isSome_iff_exists.mp hsome
            rw [hv] at h
            exact Option.noConfusion h
    · intro h
      exact absurd h hne

lemma getEasyMove_none_iff (b : Board) (r : ℚ) :
    getEasyMove b r = none ↔ getRelevantPositions b AI_EASY_SEARCH_RANGE = [] := by
  rw [getEasyMove]
  by_cases hemp : (getRelevantPositions b AI_EASY_SEARCH_RANGE).isEmpty
  · rw [if_pos hemp]
    simp [List.isEmpty_iff.mp hemp]
  · rw [if_neg hemp]
    have hne : getRelevantPositions b AI_EASY_SEARCH_RANGE ≠ [] :=
      fun hcon => hemp (by simp [hcon])
    simp [hne]

lemma getEasyMove_mem (b : Board) (r : ℚ) (p : Position) (h0 : 0 ≤ r) (h1 : r < 1)
    (h : getEasyMove b r = some p) :
    p ∈ getRelevantPositions b AI_EASY_SEARCH_RANGE := by
  rw [getEasyMove] at h
  by_cases hemp : (getRelevantPositions b AI_EASY_SEARCH_RANGE).isEmpty
  · rw [if_pos hemp] at h
    exact Option.noConfusion h
  · rw [if_neg hemp] at h
    obtain rfl := Option.some.inj h
    have hlenpos : 0 < (getRelevantPositions b AI_EASY_SEARCH_RANGE).length := by
      cases hcand : getRelevantPositions b AI_EASY_SEARCH_RANGE with
      | nil => exact absurd (by simp [hcand]) hemp
      | cons x t => simp
    have hflt : ⌊r * ((getRelevantPositions b AI_EASY_SEARCH_RANGE).length : ℚ)⌋ <
        ((getRelevantPositions b AI_EASY_SEARCH_RANGE).length : Int) := by
      rw [Int.floor_lt]
      push_cast
      calc r * ((getRelevantPositions b AI_EASY_SEARCH_RANGE).length : ℚ) <
          1 * ((getRelevantPositions b AI_EASY_SEARCH_RANGE).length : ℚ) := by
            refine mul_lt_mul_of_pos_right h1 ?_
            exact_mod_cast hlenpos
        _ = _ := one_mul _
    have hfge : 0 ≤ ⌊r * ((getRelevantPositions b AI_EASY_SEARCH_RANGE).length : ℚ)⌋ := by
      refine Int.floor_nonneg.mpr ?_
      positivity
    have hidx : (⌊r * ((getRelevantPositions b AI_EASY_SEARCH_RANGE).length : ℚ)⌋).toNat <
        (getRelevantPositions b AI_EASY_SEARCH_RANGE).length := by
      omega
    rw [List.getD_eq_getElem _ _ hidx]
    exact List.getElem_mem hidx

lemma hardRanked_ne_nil {b : Board} {player : Player}
    (hne : getRelevantPositions b AI_MEDIUM_HARD_SEARCH_RANGE ≠ []) :
    hardRanked b player ≠ [] := by
  intro hcon
  have hlen := (sortDesc_perm ((getRelevantPositions b
      AI_MEDIUM_HARD_SEARCH_RANGE).map (evalThreat b player))).length_eq
  rw [show sortDesc ((getRelevantPositions b AI_MEDIUM_HARD_SEARCH_RANGE).map
    (evalThreat b player)) = hardRanked b player from rfl, hcon] at hlen
  simp only [List.length_nil, List.length_map] at hlen
  exact hne (List.length_eq_zero.mp hlen.symm)

/-- C5 (amended): the hard tier equals inclusive cumulative-threshold rank
selection over its descending ranking: rank 1 when `r ≤ 0.7`, rank 2 when
`0.7 < r ≤ 0.9`, rank 3 when `0.9 < r ≤ 1.0`, with missing ranks and draws
beyond 1.0 falling back to the top-ranked candidate (and none exactly when
there are no candidates). -/
theorem C5_hard_rank_selection (b : Board) (player : Player) (r : ℚ) :
    getHardMove b player r = hardAmendedSelect b player r := by
  simp only [getHardMove, hardAmendedSelect]
  by_cases hemp : (getRelevantPositions b AI_MEDIUM_HARD_SEARCH_RANGE).isEmpty
  · rw [if_pos hemp]
    have hcand := List.isEmpty_iff.mp hemp
    have hr : hardRanked b player = [] := by
      rw [hardRanked, hcand]
      rfl
    rw [hr]
  · rw [if_neg hemp]
    have hne : getRelevantPositions b AI_MEDIUM_HARD_SEARCH_RANGE ≠ [] :=
      fun hcon => hemp (by simp [hcon])
    cases hs : hardRanked b player with
    | nil => exact absurd hs (hardRanked_ne_nil hne)
    | cons e1 t =>
      have hs2 : sortDesc ((getRelevantPositions b AI_MEDIUM_HARD_SEARCH_RANGE).map
          (evalThreat b player)) = e1 :: t := hs
      rw [hs2]
      dsimp only
      cases t with
      | nil =>
        have htake : (e1 :: ([] : List ThreatEvaluation)).take AI_HARD_TOP_MOVES_COUNT =
            [e1] := rfl
        rw [htake, AI_HARD_MOVE_WEIGHTS, pickWeighted]
        by_cases h7 : r ≤ 7/10
        · rw [if_pos (by linarith : r ≤ 0 + 7/10), if_pos h7]
        · rw [if_neg (by intro hcon; exact h7 (by linarith)),
            show pickWeighted r [] [2/10, 1/10] (0 + 7/10) = none from rfl]
          split_ifs <;> rfl
      | cons e2 t2 =>
        cases t2 with
        | nil =>
          have htake : (e1 :: e2 :: ([] : List ThreatEvaluation)).take
              AI_HARD_TOP_MOVES_COUNT = [e1, e2] := rfl
          rw [htake, AI_HARD_MOVE_WEIGHTS, pickWeighted]
          by_cases h7 : r ≤ 7/10
          · rw [if_pos (by linarith : r ≤ 0 + 7/10), if_pos h7]
          · rw [if_neg (by intro hcon; exact h7 (by linarith)), pickWeighted]
            by_cases h9 : r ≤ 7/10 + 2/10
            · rw [if_pos (by linarith : r ≤ 0 + 7/10 + 2/10), if_neg h7, if_pos h9]
              rfl
            · rw [if_neg (by intro hcon; exact h9 (by linarith)),
                show pickWeighted r [] [1/10] (0 + 7/10 + 2/10) = none from rfl,
                if_neg h7, if_neg h9]
              split_ifs <;> rfl
        | cons e3 t3 =>
          have htake : (e1 :: e2 :: e3 :: t3).take AI_HARD_TOP_MOVES_COUNT =
              [e1, e2, e3] := rfl
          rw [htake, AI_HARD_MOVE_WEIGHTS, pickWeighted]
          by_cases h7 : r ≤ 7/10
          · rw [if_pos (by linarith : r ≤ 0 + 7/10), if_pos h7]
          · rw [if_neg (by intro hcon; exact h7 (by linarith)), pickWeighted]
            by_cases h9 : r ≤ 7/10 + 2/10
            · rw [if_pos (by linarith : r ≤ 0 + 7/10 + 2/10), if_neg h7, if_pos h9]
              rfl
            · rw [if_neg (by intro hcon; exact h9 (by linarith)), pickWeighted]
              by_cases h10 : r ≤ 7/10 + 2/10 + 1/10
              · rw [if_pos (by linarith : r ≤ 0 + 7/10 + 2/10 + 1/10), if_neg h7,
                  if_neg h9, if_pos h10]
                rfl
              · rw [if_neg (by intro hcon; exact h10 (by linarith)),
                  show pickWeighted r [] [] (0 + 7/10 + 2/10 + 1/10) = none from rfl,
                  if_neg h7, if_neg h9, if_neg h10]
                rfl

/-- C5 counterexample: reading the claim's thresholds strictly ("lies
below"), the claim predicts rank 2 at the boundary draw r = 0.7, but the
source's inclusive comparison `random <= cumulative` selects rank 1; on the
blocked open four the two ranks hold different positions (rank 1 is the
unique winning completion (7,9)). -/
theorem C5_counterexample :
    (getRelevantPositions bBlock4 AI_MEDIUM_HARD_SEARCH_RANGE ≠ [] ∧
      (0 : ℚ) ≤ 7/10 ∧ (7/10 : ℚ) < 1) ∧
    getAIMove bBlock4 .one .hard (7/10) = some ⟨7, 9⟩ ∧
    hardClaimSelect bBlock4 .one (7/10) = some ⟨6, 6⟩ ∧
    getAIMove bBlock4 .one .hard (7/10) ≠ hardClaimSelect bBlock4 .one (7/10) := by
  refine ⟨⟨?_, by norm_num, by norm_num⟩, ?_, ?_, ?_⟩
  · with_unfolding_all decide
  · with_unfolding_all decide
  · with_unfolding_all decide
  · with_unfolding_all decide

/-- C4: the medium tier follows the short-circuiting cascade: the first
candidate in scan order whose placement wins for the mover; else the first
whose placement would win for the opponent; else the first candidate
maximizing mover score plus 1.2 times opponent score. -/
theorem C4_medium_cascade (b : Board) (player : Player) :
    getMediumMove b player = mediumSpecMove b player := by
  rw [getMediumMove, mediumSpecMove]
  by_cases hemp : (getRelevantPositions b AI_MEDIUM_HARD_SEARCH_RANGE).isEmpty
  · rw [if_pos hemp]
    rw [List.isEmpty_iff.mp hemp]
    rfl
  · rw [if_neg hemp]
    cases hw1 : (getRelevantPositions b AI_MEDIUM_HARD_SEARCH_RANGE).find?
        (fun pos => winsAt b pos player) with
    | some p => rfl
    | none =>
      cases hw2 : (getRelevantPositions b AI_MEDIUM_HARD_SEARCH_RANGE).find?
          (fun pos => winsAt b pos player.other) with
      | some p => rfl
      | none =>
        exact medium_fold_none_eq_firstMaxBy b player _

lemma chebDist_le_iff {q p : Position} {range : Nat} :
    chebDist q p ≤ range ↔
      -(range : Int) ≤ p.row - q.row ∧ p.row - q.row ≤ range ∧
        -(range : Int) ≤ p.col - q.col ∧ p.col - q.col ≤ range := by
  rw [chebDist]
  omega

lemma mem_getRelevantPositions_of_stones (b : Board) (range : Nat)
    (hst : ¬((countPieces b).1 = 0 ∧ (countPieces b).2 = 0)) (p : Position) :
    p ∈ getRelevantPositions b range ↔ relevantSpec b range p := by
  rw [getRelevantPositions]
  rw [if_neg hst]
  rw [mem_foldl_insertUnique]
  simp only [List.not_mem_nil, false_or, List.mem_flatMap, List.mem_range]
  constructor
  · rintro ⟨row, hrow, hp⟩
    obtain ⟨col, hcol, hp⟩ := hp
    by_cases hocc : (getCell b row col).isSome
    · rw [if_pos hocc] at hp
      simp only [List.mem_flatMap] at hp
      obtain ⟨dr, hdr, hp⟩ := hp
      rw [List.mem_filterMap] at hp
      obtain ⟨dc, hdc, heq⟩ := hp
      rw [Option.ite_none_right_eq_some, Option.some.injEq] at heq
      obtain ⟨hcond, rfl⟩ := heq
      rw [Bool.and_eq_true, beq_iff_eq] at hcond
      obtain ⟨hvalidp, hemptyp⟩ := hcond
      obtain ⟨hdr1, hdr2⟩ := mem_offsetList.mp hdr
      obtain ⟨hdc1, hdc2⟩ := mem_offsetList.mp hdc
      refine ⟨hvalidp, hemptyp, ⟨row, col⟩, ?_, hocc, ?_⟩
      · rw [isValidPosition_iff]
        constructor
        · positivity
        refine ⟨?_, by positivity, ?_⟩ <;>
          · simp only [BOARD_SIZE] at hrow hcol ⊢
            omega
      · rw [chebDist_le_iff]
        constructor <;> [skip; constructor] <;> [skip; skip; constructor] <;>
          · simp only []
            omega
    · rw [if_neg hocc] at hp
      simp at hp
  · rintro ⟨hvp, hep, q, hvq, hoq, hcheb⟩
    obtain ⟨hq1, hq2, hq3, hq4⟩ := isValidPosition_iff.mp hvq
    obtain ⟨hc1, hc2, hc3, hc4⟩ := chebDist_le_iff.mp hcheb
    refine ⟨q.row.toNat, ?_, q.col.toNat, ?_, ?_⟩
    · simp only [BOARD_SIZE]; omega
    · simp only [BOARD_SIZE]; omega
    · have hqr : ((q.row.toNat : Nat) : Int) = q.row := Int.toNat_of_nonneg hq1
      have hqc : ((q.col.toNat : Nat) : Int) = q.col := Int.toNat_of_nonneg hq3
      have hocc' : (getCell b (q.row.toNat : Int) (q.col.toNat : Int)).isSome := by
        rw [hqr, hqc]
        exact hoq
      rw [if_pos hocc']
      simp only [List.mem_flatMap]
      refine ⟨p.row - q.row, mem_offsetList.mpr ⟨hc1, hc2⟩, ?_⟩
      rw [List.mem_filterMap]
      refine ⟨p.col - q.col, mem_offsetList.mpr ⟨hc3, hc4⟩, ?_⟩
      have her : (q.row.toNat : Int) + (p.row - q.row) = p.row := by omega
      have hec : (q.col.toNat : Int) + (p.col - q.col) = p.col := by omega
      simp only [her, hec]
      rw [Option.ite_none_right_eq_some, Option.some.injEq]
      refine ⟨?_, ?_⟩
      · rw [Bool.and_eq_true, beq_iff_eq]
        exact ⟨hvp, hep⟩
      · cases p
        rfl

/-- C7: with no stones, `getRelevantPositions` is exactly the center cell;
otherwise it is, without duplicates, exactly the set of on-board empty cells
within Chebyshev distance `range` of some occupied cell. -/
theorem C7_getRelevantPositions_spec (b : Board) (range : Nat) :
    (noStones b → getRelevantPositions b range = [⟨7, 7⟩]) ∧
    (¬noStones b →
      (getRelevantPositions b range).Nodup ∧
      ∀ p : Position, p ∈ getRelevantPositions b range ↔ relevantSpec b range p) := by
  constructor
  · intro h
    rw [getRelevantPositions, if_pos ((countPieces_zero_iff b).mpr h)]
    rfl
  · intro h
    have hst : ¬((countPieces b).1 = 0 ∧ (countPieces b).2 = 0) :=
      fun hz => h ((countPieces_zero_iff b).mp hz)
    refine ⟨?_, mem_getRelevantPositions_of_stones b range hst⟩
    rw [getRelevantPositions, if_neg hst]
    exact nodup_foldl_insertUnique _ _ List.nodup_nil

/-- C7 witness: the empty board yields exactly the center; around a single
center stone the characterization is instantiated with range 2. -/
theorem C7_witness :
    (noStones emptyBoard ∧ getRelevantPositions emptyBoard 2 = [⟨7, 7⟩]) ∧
    (¬noStones bOne ∧
      ((getRelevantPositions bOne 2).Nodup ∧
        ∀ p : Position, p ∈ getRelevantPositions bOne 2 ↔ relevantSpec bOne 2 p)) :=
  ⟨⟨by decide, (C7_getRelevantPositions_spec emptyBoard 2).1 (by decide)⟩,
   ⟨by decide, (C7_getRelevantPositions_spec bOne 2).2 (by decide)⟩⟩

lemma relevant_valid_empty (b : Board) (range : Nat) (p : Position)
    (hp : p ∈ getRelevantPositions b range) :
    isValidPosition p.row p.col = true ∧ cellAt b p = none := by
  by_cases h : (countPieces b).1 = 0 ∧ (countPieces b).2 = 0
  · rw [getRelevantPositions, if_pos h] at hp
    simp only [List.mem_singleton] at hp
    subst hp
    refine ⟨by decide, ?_⟩
    have hns := (countPieces_zero_iff b).mp h
    have h77 := hns 7 (by simp [BOARD_SIZE]) 7 (by simp [BOARD_SIZE])
    show getCell b ((BOARD_SIZE : Int) / 2) ((BOARD_SIZE : Int) / 2) = none
    simpa [BOARD_SIZE] using h77
  · obtain ⟨hv, he, _⟩ := (mem_getRelevantPositions_of_stones b range h p).mp hp
    exact ⟨hv, he⟩

lemma singleEmpty_cand (b : Board) (e : Position) (hse : singleEmptyAt b e)
    (range : Nat) (hr : 1 ≤ range) :
    getRelevantPositions b range ≠ [] ∧
      ∀ p ∈ getRelevantPositions b range, p = e := by
  obtain ⟨hv, hempty, huniq⟩ := hse
  obtain ⟨her1, her2, hec1, hec2⟩ := isValidPosition_iff.mp hv
  obtain ⟨qc, hqv, hqne, hqd⟩ : ∃ qc : Int, isValidPosition e.row qc = true ∧
      qc ≠ e.col ∧ (e.col - qc).natAbs ≤ 1 := by
    by_cases hcol : e.col < 14
    · exact ⟨e.col + 1, isValidPosition_iff.mpr (by omega), by omega, by omega⟩
    · exact ⟨e.col - 1, isValidPosition_iff.mpr (by omega), by omega, by omega⟩
  have hoq : (cellAt b (⟨e.row, qc⟩ : Position)).isSome := by
    obtain ⟨hq1, hq2, hq3, hq4⟩ := isValidPosition_iff.mp hqv
    cases hcell : cellAt b (⟨e.row, qc⟩ : Position) with
    | some _ => rfl
    | none =>
      exfalso
      have := huniq e.row.toNat (by simp [BOARD_SIZE]; omega) qc.toNat
        (by simp [BOARD_SIZE]; omega) ?_
      · have hpair := Prod.mk.injEq _ _ _ _ ▸ this
        simp only [Prod.mk.injEq] at hpair
        exact hqne (by omega)
      · show getCell b ((e.row.toNat : Nat) : Int) ((qc.toNat : Nat) : Int) = none
        rw [Int.toNat_of_nonneg hq1, Int.toNat_of_nonneg hq3]
        exact hcell
  have hnons : ¬((countPieces b).1 = 0 ∧ (countPieces b).2 = 0) := by
    intro hz
    have hns := (countPieces_zero_iff b).mp hz
    obtain ⟨hq1, hq2, hq3, hq4⟩ := isValidPosition_iff.mp hqv
    have := hns e.row.toNat (by simp [BOARD_SIZE]; omega) qc.toNat
      (by simp [BOARD_SIZE]; omega)
    rw [Int.toNat_of_nonneg hq1, Int.toNat_of_nonneg hq3] at this
    rw [show getCell b e.row qc = cellAt b (⟨e.row, qc⟩ : Position) from rfl] at this
    rw [this] at hoq
    exact Bool.noConfusion hoq
  constructor
  · have hmem : e ∈ getRelevantPositions b range := by
      rw [mem_getRelevantPositions_of_stones b range hnons]
      refine ⟨hv, hempty, ⟨e.row, qc⟩, hqv, hoq, ?_⟩
      rw [chebDist_le_iff]
      simp only []
      omega
    exact List.ne_nil_of_mem hmem
  · intro p hp
    obtain ⟨hvp, hep, _⟩ := (mem_getRelevantPositions_of_stones b range hnons p).mp hp
    obtain ⟨hp1, hp2, hp3, hp4⟩ := isValidPosition_iff.mp hvp
    have hq := huniq p.row.toNat (by simp [BOARD_SIZE]; omega) p.col.toNat
      (by simp [BOARD_SIZE]; omega) ?_
    · rw [Prod.mk.injEq] at hq
      obtain ⟨hrow, hcol⟩ := hq
      have hr' : p.row = e.row := by omega
      have hc' : p.col = e.col := by omega
      cases p
      cases e
      simp only [Position.mk.injEq]
      exact ⟨hr', hc'⟩
    · show getCell b ((p.row.toNat : Nat) : Int) ((p.col.toNat : Nat) : Int) = none
      rw [Int.toNat_of_nonneg hp1, Int.toNat_of_nonneg hp3]
      exact hep

/-- C8: for every tier, `getAIMove` returns none exactly when the candidate
set of that tier's search range is empty; any returned position is on-board
and empty on the input board; and with exactly one empty cell every tier
returns that cell. -/
theorem C8_getAIMove_contract (b : Board) (player : Player) (difficulty : Difficulty)
    (r : ℚ) (h0 : 0 ≤ r) (h1 : r < 1) :
    (getAIMove b player difficulty r = none ↔
      getRelevantPositions b (searchRange difficulty) = []) ∧
    (∀ p, getAIMove b player difficulty r = some p →
      isValidPosition p.row p.col = true ∧ cellAt b p = none) ∧
    (∀ e, singleEmptyAt b e → getAIMove b player difficulty r = some e) := by
  have hmem : ∀ p, getAIMove b player difficulty r = some p →
      p ∈ getRelevantPositions b (searchRange difficulty) := by
    intro p hp
    cases difficulty with
    | easy => exact getEasyMove_mem b r p h0 h1 hp
    | medium => exact getMediumMove_mem b player p hp
    | hard => exact getHardMove_mem b player r p hp
  have hnone : getAIMove b player difficulty r = none ↔
      getRelevantPositions b (searchRange difficulty) = [] := by
    cases difficulty with
    | easy => exact getEasyMove_none_iff b r
    | medium => exact getMediumMove_none_iff b player
    | hard => exact getHardMove_none_iff b player r
  refine ⟨hnone, fun p hp => relevant_valid_empty b _ p (hmem p hp), ?_⟩
  intro e hse
  have hr1 : 1 ≤ searchRange difficulty := by
    cases difficulty <;> simp [searchRange, AI_EASY_SEARCH_RANGE,
      AI_MEDIUM_HARD_SEARCH_RANGE]
  obtain ⟨hne, hall⟩ := singleEmpty_cand b e hse (searchRange difficulty) hr1
  cases hres : getAIMove b player difficulty r with
  | none => exact absurd (hnone.mp hres) hne
  | some p =>
    have hpe : p = e := hall p (hmem p hres)
    rw [← hpe]

/-- C8 witness: on the parity-colored board with the single empty cell
(7,7), each tier returns that cell (instantiated at the medium tier and a
draw of one half). -/
theorem C8_witness :
    ((0 : ℚ) ≤ 1/2 ∧ (1/2 : ℚ) < 1 ∧ singleEmptyAt nearFullChecker ⟨7, 7⟩) ∧
    getAIMove nearFullChecker .one .medium (1/2) = some ⟨7, 7⟩ :=
  ⟨⟨by norm_num, by norm_num, by decide⟩,
    (C8_getAIMove_contract nearFullChecker .one .medium (1/2) (by norm_num)
      (by norm_num)).2.2 ⟨7, 7⟩ (by decide)⟩

/-- C6: `checkGameOver` reports the last move's win — with that winning
line — before the full-board check (so a move that wins while filling the
board is a win, never a draw); a full board without such a win is a draw
with no winner; otherwise the game is still in progress. -/
theorem C6_checkGameOver_cases (b : Board) (lastMove : Option Move) :
    (∀ m, lastMove = some m → (checkWin b m.position m.player).isWin = true →
      checkGameOver b lastMove =
        ⟨true, some m.player, false, (checkWin b m.position m.player).winningLine⟩) ∧
    ((∀ m, lastMove = some m → (checkWin b m.position m.player).isWin = false) →
      isBoardFull b = true → checkGameOver b lastMove = ⟨true, none, true, none⟩) ∧
    ((∀ m, lastMove = some m → (checkWin b m.position m.player).isWin = false) →
      isBoardFull b = false → checkGameOver b lastMove = ⟨false, none, false, none⟩) := by
  refine ⟨?_, ?_, ?_⟩
  · rintro m rfl hwin
    simp [checkGameOver, hwin]
  · intro hnowin hfull
    cases lastMove with
    | none => simp [checkGameOver, hfull]
    | some m => simp [checkGameOver, hnowin m rfl, hfull]
  · intro hnowin hfull
    cases lastMove with
    | none => simp [checkGameOver, hfull]
    | some m => simp [checkGameOver, hnowin m rfl, hfull]

/-- C6 witness: a just-completed five-in-a-row reports that player's win,
and a full board whose last move does not win reports a draw. -/
theorem C6_witness :
    ((checkWin bWin5 ⟨7, 7⟩ .one).isWin = true ∧
      checkGameOver bWin5 (some ⟨⟨7, 7⟩, .one⟩) =
        ⟨true, some .one, false, (checkWin bWin5 ⟨7, 7⟩ .one).winningLine⟩) ∧
    ((checkWin fullChecker ⟨7, 7⟩ .two).isWin = false ∧ isBoardFull fullChecker = true ∧
      checkGameOver fullChecker (some ⟨⟨7, 7⟩, .two⟩) = ⟨true, none, true, none⟩) :=
  ⟨⟨by decide,
    (C6_checkGameOver_cases bWin5 (some ⟨⟨7, 7⟩, .one⟩)).1 ⟨⟨7, 7⟩, .one⟩ rfl (by decide)⟩,
   ⟨by decide, by decide,
    (C6_checkGameOver_cases fullChecker (some ⟨⟨7, 7⟩, .two⟩)).2.1
      (fun m hm => by injection hm with h; subst h; decide) (by decide)⟩⟩

lemma detect_fwd_eq (b : Board) (pos : Position) (d : Direction) (pl : Player)
    (hgood : goodDir d) (hst : stoneCond b pl pos.row pos.col = true) :
    scanRun b pl d SCAN_FUEL pos.row pos.col =
      ((⟨pos.row, pos.col⟩ : Position) ::
        (scanRun b pl d SCAN_FUEL (pos.row + d.1) (pos.col + d.2)).1,
        (scanRun b pl d SCAN_FUEL (pos.row + d.1) (pos.col + d.2)).2) := by
  have hstep : scanRun b pl d SCAN_FUEL pos.row pos.col =
      ((⟨pos.row, pos.col⟩ : Position) ::
        (scanRun b pl d 15 (pos.row + d.1) (pos.col + d.2)).1,
        (scanRun b pl d 15 (pos.row + d.1) (pos.col + d.2)).2) := by
    rw [show SCAN_FUEL = 15 + 1 from rfl, scanRun_succ, if_pos hst]
  have hlt : (scanRun b pl d SCAN_FUEL pos.row pos.col).1.length < SCAN_FUEL :=
    scanRun_lt_fuel b pl hgood pos.row pos.col
  rw [hstep] at hlt
  simp only [List.length_cons, SCAN_FUEL] at hlt
  have hcongr : scanRun b pl d SCAN_FUEL (pos.row + d.1) (pos.col + d.2) =
      scanRun b pl d 15 (pos.row + d.1) (pos.col + d.2) :=
    scanRun_fuel_congr b pl d 15 (pos.row + d.1) (pos.col + d.2) SCAN_FUEL
      (by omega) (by simp only [SCAN_FUEL]; omega)
  rw [hstep, hcongr]

lemma openEndsCount_scan (b : Board) (pos : Position) (d : Direction) (pl : Player) :
    openEndsCount b pos d pl =
      (if isValidPosition (scanRun b pl d SCAN_FUEL (pos.row + d.1) (pos.col + d.2)).2.1
            (scanRun b pl d SCAN_FUEL (pos.row + d.1) (pos.col + d.2)).2.2 &&
          (getCell b (scanRun b pl d SCAN_FUEL (pos.row + d.1) (pos.col + d.2)).2.1
            (scanRun b pl d SCAN_FUEL (pos.row + d.1) (pos.col + d.2)).2.2 == none)
        then 1 else 0) +
      (if isValidPosition
            (scanRun b pl (-d.1, -d.2) SCAN_FUEL (pos.row - d.1) (pos.col - d.2)).2.1
            (scanRun b pl (-d.1, -d.2) SCAN_FUEL (pos.row - d.1) (pos.col - d.2)).2.2 &&
          (getCell b (scanRun b pl (-d.1, -d.2) SCAN_FUEL (pos.row - d.1) (pos.col - d.2)).2.1
            (scanRun b pl (-d.1, -d.2) SCAN_FUEL (pos.row - d.1) (pos.col - d.2)).2.2 == none)
        then 1 else 0) := by
  have e1 : (scanRun b pl d SCAN_FUEL (pos.row + d.1) (pos.col + d.2)).1.length =
      fwdExt b pos d pl := rfl
  have e2 : (scanRun b pl (-d.1, -d.2) SCAN_FUEL (pos.row - d.1) (pos.col - d.2)).1.length =
      bwdExt b pos d pl := rfl
  rw [scanRun_final, scanRun_final, e1, e2, neg_pair_fst, neg_pair_snd]
  rw [openEndsCount]
  refine congrArg₂ (· + ·) ?_ ?_
  · have ex : (stepP pos d ((fwdExt b pos d pl : Int) + 1)).row =
        pos.row + d.1 + (fwdExt b pos d pl : Int) * d.1 := by
      simp only [stepP]; ring
    have ey : (stepP pos d ((fwdExt b pos d pl : Int) + 1)).col =
        pos.col + d.2 + (fwdExt b pos d pl : Int) * d.2 := by
      simp only [stepP]; ring
    rw [openCellB, cellAt, ex, ey]
  · have ex : (stepP pos d (-((bwdExt b pos d pl : Int) + 1))).row =
        pos.row - d.1 + (bwdExt b pos d pl : Int) * -d.1 := by
      simp only [stepP]; ring
    have ey : (stepP pos d (-((bwdExt b pos d pl : Int) + 1))).col =
        pos.col - d.2 + (bwdExt b pos d pl : Int) * -d.2 := by
      simp only [stepP]; ring
    rw [openCellB, cellAt, ex, ey]

lemma classify_match (n ends : Nat) (d : Direction) (ps : List Position) :
    (if WIN_LENGTH ≤ n then some (⟨.five, d, ps, SCORE_FIVE⟩ : Pattern)
     else if n = 4 then
       if ends = 2 then some ⟨.openFour, d, ps, SCORE_OPEN_FOUR⟩
       else if ends = 1 then some ⟨.four, d, ps, SCORE_FOUR⟩
       else none
     else if n = 3 then
       if ends = 2 then some ⟨.openThree, d, ps, SCORE_OPEN_THREE⟩
       else if ends = 1 then some ⟨.three, d, ps, SCORE_THREE⟩
       else none
     else if n = 2 ∧ 0 < ends then some ⟨.two, d, ps, SCORE_TWO⟩
     else none).map (fun p => (p.type, p.score)) = classifyTable n ends := by
  rw [classifyTable]
  split_ifs <;>
    simp_all [WIN_LENGTH, SCORE_FIVE, SCORE_OPEN_FOUR, SCORE_FOUR, SCORE_OPEN_THREE,
      SCORE_THREE, SCORE_TWO] <;>
    omega

/-- C2: for an in-range position holding the player's stone and an axis
direction, `detectPattern` returns exactly the category and score given by
the classification table applied to the merged run length through the
position and the number of on-board empty run ends — and `none` for every
combination outside the table. -/
theorem C2_detectPattern_table (b : Board) (pos : Position) (d : Direction) (pl : Player)
    (hd : d ∈ FOUR_DIRECTIONS) (hv : isValidPosition pos.row pos.col = true)
    (hc : cellAt b pos = some pl) :
    (detectPattern b pos d pl).map (fun p => (p.type, p.score)) =
      classifyTable (runLen b pos d pl) (openEndsCount b pos d pl) := by
  have hgood := four_directions_good d hd
  have hst : stoneCond b pl pos.row pos.col = true := by
    rw [stoneCond, hv, Bool.true_and]
    rw [cellAt] at hc
    rw [hc]
    exact beq_self_eq_true _
  have e1 : (scanRun b pl d SCAN_FUEL (pos.row + d.1) (pos.col + d.2)).1.length =
      fwdExt b pos d pl := rfl
  have e2 : (scanRun b pl (-d.1, -d.2) SCAN_FUEL (pos.row - d.1) (pos.col - d.2)).1.length =
      bwdExt b pos d pl := rfl
  have hrun : fwdExt b pos d pl + 1 + bwdExt b pos d pl = runLen b pos d pl := by
    rw [runLen]; omega
  have hposs : (scanRun b pl (-d.1, -d.2) SCAN_FUEL (pos.row - d.1) (pos.col - d.2)).1.reverse ++
      (⟨pos.row, pos.col⟩ : Position) ::
        (scanRun b pl d SCAN_FUEL (pos.row + d.1) (pos.col + d.2)).1 =
      (countConsecutive b pos d pl).2 := rfl
  rw [detectPattern, detect_fwd_eq b pos d pl hgood hst]
  simp only [List.length_cons]
  rw [e1, e2, hrun, hposs, ← openEndsCount_scan]
  exact classify_match (runLen b pos d pl) (openEndsCount b pos d pl) d
    (countConsecutive b pos d pl).2

/-- C2 witness: the open four of `bOpen4` along the horizontal axis at one
of its stones. -/
theorem C2_witness :
    ((0, 1) ∈ FOUR_DIRECTIONS ∧
      isValidPosition (Position.mk 7 6).row (Position.mk 7 6).col = true ∧
      cellAt bOpen4 ⟨7, 6⟩ = some .one) ∧
    (detectPattern bOpen4 ⟨7, 6⟩ (0, 1) .one).map (fun p => (p.type, p.score)) =
      classifyTable (runLen bOpen4 ⟨7, 6⟩ (0, 1) .one)
        (openEndsCount bOpen4 ⟨7, 6⟩ (0, 1) .one) :=
  ⟨⟨by decide, by decide, by decide⟩,
    C2_detectPattern_table bOpen4 ⟨7, 6⟩ (0, 1) .one (by decide) (by decide) (by decide)⟩

/-- C1: for an in-range position holding the player's stone, `checkWin`
reports a win iff some of the four axes carries a merged contiguous run of
length at least 5 through the position (so overlines of 6+ win and runs of
4 or fewer never do); and the winning line is exactly the first five run
positions — backward-most cell first, proceeding forward — of the first
qualifying axis in the order horizontal, vertical, diagonal-down-right,
diagonal-down-left. -/
theorem C1_checkWin_run_characterization (b : Board) (pos : Position) (pl : Player)
    (hv : isValidPosition pos.row pos.col = true) (hc : cellAt b pos = some pl) :
    ((checkWin b pos pl).isWin = true ↔
      ∃ d ∈ FOUR_DIRECTIONS, 5 ≤ runLen b pos d pl) ∧
    (∀ d, FOUR_DIRECTIONS.find? (fun e => decide (5 ≤ runLen b pos e pl)) = some d →
      (checkWin b pos pl).winningLine =
        some ((List.range 5).map
          fun i : Nat => stepP pos d ((i : Int) - (bwdExt b pos d pl : Int)))) := by
  constructor
  · simpa [WIN_LENGTH] using checkWin_isWin_iff b pos pl
  · intro d hfind
    have hfind' : FOUR_DIRECTIONS.find?
        (fun e => decide (WIN_LENGTH ≤ (countConsecutive b pos e pl).1)) = some d := by
      simpa [WIN_LENGTH, countConsecutive_count] using hfind
    have h5 : 5 ≤ runLen b pos d pl := by
      have := List.find?_some hfind
      simpa using this
    have hline : (checkWin b pos pl).winningLine =
        some ((countConsecutive b pos d pl).2.take WIN_LENGTH) := by
      rw [checkWin, checkWinAux_line b pos pl FOUR_DIRECTIONS d hfind']
    rw [hline, countConsecutive_positions, ← List.map_take, List.take_range]
    have hmin : WIN_LENGTH ⊓ runLen b pos d pl = 5 := by
      simp only [WIN_LENGTH]
      omega
    rw [hmin]

/-- C1 witness: five stones on row 7, columns 5..9; the characterization is
instantiated at the middle stone. -/
theorem C1_witness :
    (isValidPosition (Position.mk 7 7).row (Position.mk 7 7).col = true ∧
      cellAt bWin5 ⟨7, 7⟩ = some .one) ∧
    (((checkWin bWin5 ⟨7, 7⟩ .one).isWin = true ↔
      ∃ d ∈ FOUR_DIRECTIONS, 5 ≤ runLen bWin5 ⟨7, 7⟩ d .one) ∧
    (∀ d, FOUR_DIRECTIONS.find? (fun e => decide (5 ≤ runLen bWin5 ⟨7, 7⟩ e .one)) =
        some d →
      (checkWin bWin5 ⟨7, 7⟩ .one).winningLine =
        some ((List.range 5).map
          fun i : Nat => stepP ⟨7, 7⟩ d ((i : Int) - (bwdExt bWin5 ⟨7, 7⟩ d .one : Int))))) :=
  ⟨⟨by decide, by decide⟩,
    C1_checkWin_run_characterization bWin5 ⟨7, 7⟩ .one (by decide) (by decide)⟩

/-- C9: placing a stone at an in-range position yields a board holding that
stone there, agreeing with the input everywhere else, and still a 15x15
matrix; the input board itself is a pure value and is never mutated (in this
embedding `placeStone` builds a new list, and the old board remains in scope
unchanged, which the frame clause over `b` expresses). -/
theorem C9_placeStone_frame (b : Board) (pos : Position) (pl : Player)
    (hwf : boardWF b) (hv : isValidPosition pos.row pos.col = true) :
    cellAt (placeStone b pos pl) pos = some pl ∧
    (∀ q : Position, q ≠ pos → cellAt (placeStone b pos pl) q = cellAt b q) ∧
    boardWF (placeStone b pos pl) := by
  refine ⟨placeStone_cell_self b pos pl hwf hv, fun q hq => ?_, placeStone_wf b pos pl hwf⟩
  show getCell (placeStone b pos pl) q.row q.col = getCell b q.row q.col
  refine placeStone_cell_ne b pos pl fun ⟨h1, h2⟩ => hq ?_
  cases q; cases pos; simp_all

/-- C9 witness: placing on the empty board at (3,4). -/
theorem C9_witness :
    (boardWF emptyBoard ∧ isValidPosition (Position.mk 3 4).row (Position.mk 3 4).col = true) ∧
    (cellAt (placeStone emptyBoard ⟨3, 4⟩ .two) ⟨3, 4⟩ = some .two ∧
    (∀ q : Position, q ≠ ⟨3, 4⟩ →
      cellAt (placeStone emptyBoard ⟨3, 4⟩ .two) q = cellAt emptyBoard q) ∧
    boardWF (placeStone emptyBoard ⟨3, 4⟩ .two)) :=
  have hwf : boardWF emptyBoard :=
    ⟨rfl, fun row hrow => by rw [List.eq_of_mem_replicate hrow, List.length_replicate]⟩
  ⟨⟨hwf, by decide⟩, C9_placeStone_frame emptyBoard ⟨3, 4⟩ .two hwf (by decide)⟩

/-- C10: `checkWin` counts the queried cell for the player without reading
it: the win condition is exactly that the two adjacent extensions along some
axis total at least 4 (no hypothesis on the cell's content), and overwriting
the queried cell changes nothing — so an empty cell flanked by four of the
player's stones is reported as a win for that player. -/
theorem C10_checkWin_ignores_center (b : Board) (pos : Position) (pl : Player)
    (hv : isValidPosition pos.row pos.col = true) :
    ((checkWin b pos pl).isWin = true ↔
      ∃ d ∈ FOUR_DIRECTIONS, 4 ≤ fwdExt b pos d pl + bwdExt b pos d pl) ∧
    (∀ q : Player, checkWin (placeStone b pos q) pos pl = checkWin b pos pl) := by
  constructor
  · rw [checkWin_isWin_iff]
    refine exists_congr fun d => and_congr_right fun _ => ?_
    rw [runLen]
    simp only [WIN_LENGTH]
    omega
  · intro q
    exact checkWin_place_center b pos q pl

/-- C10 witness: the empty cell (7,7) flanked by the first player's stones
at columns 5, 6, 8 and 9 of row 7 is reported as a win for that player. -/
theorem C10_witness :
    (isValidPosition (Position.mk 7 7).row (Position.mk 7 7).col = true ∧
      cellAt bFlank ⟨7, 7⟩ = none) ∧
    (((checkWin bFlank ⟨7, 7⟩ .one).isWin = true ↔
      ∃ d ∈ FOUR_DIRECTIONS, 4 ≤ fwdExt bFlank ⟨7, 7⟩ d .one + bwdExt bFlank ⟨7, 7⟩ d .one) ∧
    (∀ q : Player, checkWin (placeStone bFlank ⟨7, 7⟩ q) ⟨7, 7⟩ .one =
      checkWin bFlank ⟨7, 7⟩ .one)) ∧
    (checkWin bFlank ⟨7, 7⟩ .one).isWin = true :=
  ⟨⟨by decide, by decide⟩,
    C10_checkWin_ignores_center bFlank ⟨7, 7⟩ .one (by decide), by decide⟩

/-! The forced-move analysis of claim C3: a five-completing candidate carries
a `five` pattern worth 1,000,000, which dominates every non-winning candidate
in the hard tier's total score; the medium tier finds it by direct search. -/

lemma detect_five_iff (b : Board) (pos : Position) (d : Direction) (pl : Player)
    (hgood : goodDir d) (hst : stoneCond b pl pos.row pos.col = true) :
    (∃ pat, detectPattern b pos d pl = some pat ∧ pat.type = PatternType.five) ↔
      WIN_LENGTH ≤ runLen b pos d pl := by
  have e1 : (scanRun b pl d SCAN_FUEL (pos.row + d.1) (pos.col + d.2)).1.length =
      fwdExt b pos d pl := rfl
  have e2 : (scanRun b pl (-d.1, -d.2) SCAN_FUEL (pos.row - d.1) (pos.col - d.2)).1.length =
      bwdExt b pos d pl := rfl
  have hrun : fwdExt b pos d pl + 1 + bwdExt b pos d pl = runLen b pos d pl := by
    rw [runLen]; omega
  simp only [detectPattern, detect_fwd_eq b pos d pl hgood hst, List.length_cons]
  rw [e1, e2, hrun]
  constructor
  · rintro ⟨pat, hpat, htype⟩
    by_cases h5 : WIN_LENGTH ≤ runLen b pos d pl
    · exact h5
    · rw [if_neg h5] at hpat
      exfalso
      split_ifs at hpat <;>
        first
          | exact Option.noConfusion hpat
          | (obtain rfl := Option.some.inj hpat
             simp at htype)
  · intro h5
    exact ⟨_, if_pos h5, rfl⟩

lemma evaluatePosition_five_iff (b : Board) (pos : Position) (pl : Player)
    (hv : isValidPosition pos.row pos.col = true)
    (hcell : cellAt (placeStone b pos pl) pos = some pl) :
    (∃ pat ∈ evaluatePosition b pos pl, pat.type = PatternType.five) ↔
      winsAt b pos pl = true := by
  have hst : stoneCond (placeStone b pos pl) pl pos.row pos.col = true := by
    rw [stoneCond, hv, Bool.true_and]
    rw [cellAt] at hcell
    rw [hcell]
    exact beq_self_eq_true _
  rw [winsAt, checkWin_isWin_iff]
  simp only [evaluatePosition, List.mem_filterMap]
  constructor
  · rintro ⟨pat, ⟨d, hd, hdet⟩, htype⟩
    exact ⟨d, hd, (detect_five_iff _ pos d pl (four_directions_good d hd) hst).mp
      ⟨pat, hdet, htype⟩⟩
  · rintro ⟨d, hd, hrun⟩
    obtain ⟨pat, hdet, htype⟩ :=
      (detect_five_iff _ pos d pl (four_directions_good d hd) hst).mpr hrun
    exact ⟨pat, ⟨d, hd, hdet⟩, htype⟩

lemma winsAt_five (b : Board) (pos : Position) (pl : Player) (hwf : boardWF b)
    (hv : isValidPosition pos.row pos.col = true) :
    winsAt b pos pl = true ↔
      ∃ pat ∈ evaluatePosition b pos pl, pat.type = PatternType.five :=
  (evaluatePosition_five_iff b pos pl hv (placeStone_cell_self b pos pl hwf hv)).symm

lemma detect_score_cases (b : Board) (pos : Position) (d : Direction) (pl : Player)
    (pat : Pattern) (h : detectPattern b pos d pl = some pat) :
    (pat.type = PatternType.five ∧ pat.score = SCORE_FIVE) ∨
      (pat.type ≠ PatternType.five ∧
        (pat.score = SCORE_OPEN_FOUR ∨ pat.score = SCORE_FOUR ∨
          pat.score = SCORE_OPEN_THREE ∨ pat.score = SCORE_THREE ∨
          pat.score = SCORE_TWO)) := by
  simp only [detectPattern] at h
  split_ifs at h <;>
    first
      | exact Option.noConfusion h
      | (obtain rfl := Option.some.inj h
         simp)

lemma evaluatePosition_score_facts (b : Board) (pos : Position) (pl : Player) :
    ∀ pat ∈ evaluatePosition b pos pl,
      0 ≤ pat.score ∧ pat.score ≤ SCORE_FIVE ∧
        (pat.type ≠ PatternType.five → pat.score ≤ SCORE_OPEN_FOUR) := by
  intro pat hpat
  simp only [evaluatePosition, List.mem_filterMap] at hpat
  obtain ⟨d, _, hdet⟩ := hpat
  rcases detect_score_cases _ pos d pl pat hdet with ⟨htype, hs⟩ | ⟨htype, hs⟩
  · rw [hs]
    exact ⟨by norm_num [SCORE_FIVE], le_refl _, fun hne => absurd htype hne⟩
  · rcases hs with hs | hs | hs | hs | hs <;> rw [hs] <;>
      exact ⟨by norm_num [SCORE_OPEN_FOUR, SCORE_FOUR, SCORE_OPEN_THREE, SCORE_THREE,
          SCORE_TWO],
        by norm_num [SCORE_FIVE, SCORE_OPEN_FOUR, SCORE_FOUR, SCORE_OPEN_THREE,
          SCORE_THREE, SCORE_TWO],
        fun _ => by norm_num [SCORE_OPEN_FOUR, SCORE_FOUR, SCORE_OPEN_THREE,
          SCORE_THREE, SCORE_TWO]⟩

lemma evaluatePosition_five_score (b : Board) (pos : Position) (pl : Player)
    (pat : Pattern) (hpat : pat ∈ evaluatePosition b pos pl)
    (htype : pat.type = PatternType.five) : pat.score = SCORE_FIVE := by
  simp only [evaluatePosition, List.mem_filterMap] at hpat
  obtain ⟨d, _, hdet⟩ := hpat
  rcases detect_score_cases _ pos d pl pat hdet with ⟨_, hs⟩ | ⟨hne, _⟩
  · exact hs
  · exact absurd htype hne

lemma evaluatePosition_length_le (b : Board) (pos : Position) (pl : Player) :
    (evaluatePosition b pos pl).length ≤ 4 := by
  simp only [evaluatePosition]
  exact le_trans (List.length_filterMap_le _ _) (by simp [FOUR_DIRECTIONS])

lemma patternScoreSum_eq (ps : List Pattern) :
    patternScoreSum ps = (ps.map Pattern.score).sum := by
  have aux : ∀ (l : List Pattern) (a : ℚ),
      l.foldl (fun sum p => sum + p.score) a = a + (l.map Pattern.score).sum := by
    intro l
    induction l with
    | nil => intro a; simp
    | cons p t ih =>
      intro a
      rw [List.foldl_cons, ih, List.map_cons, List.sum_cons]
      ring
  rw [patternScoreSum, aux]
  ring

lemma patternScoreSum_nonneg (ps : List Pattern) (h : ∀ p ∈ ps, 0 ≤ p.score) :
    0 ≤ patternScoreSum ps := by
  rw [patternScoreSum_eq]
  refine List.sum_nonneg ?_
  intro x hx
  obtain ⟨p, hp, rfl⟩ := List.mem_map.mp hx
  exact h p hp

lemma patternScoreSum_single_le (ps : List Pattern) (p : Pattern) (hp : p ∈ ps)
    (h : ∀ q ∈ ps, 0 ≤ q.score) : p.score ≤ patternScoreSum ps := by
  rw [patternScoreSum_eq]
  refine List.single_le_sum ?_ _ (List.mem_map.mpr ⟨p, hp, rfl⟩)
  intro x hx
  obtain ⟨q, hq, rfl⟩ := List.mem_map.mp hx
  exact h q hq

lemma patternScoreSum_le_of (ps : List Pattern) (n : ℚ) (hn : 0 ≤ n)
    (h : ∀ p ∈ ps, p.score ≤ n) (hlen : ps.length ≤ 4) :
    patternScoreSum ps ≤ 4 * n := by
  rw [patternScoreSum_eq]
  have h1 : (ps.map Pattern.score).sum ≤ (ps.map Pattern.score).length • n := by
    refine List.sum_le_card_nsmul _ _ ?_
    intro x hx
    obtain ⟨p, hp, rfl⟩ := List.mem_map.mp hx
    exact h p hp
  have h2 : (ps.map Pattern.score).length • n = ((ps.length : ℚ)) * n := by
    rw [List.length_map, nsmul_eq_mul]
  rw [h2] at h1
  refine le_trans h1 ?_
  have hc : ((ps.length : ℚ)) ≤ 4 := by exact_mod_cast hlen
  exact mul_le_mul_of_nonneg_right hc hn

lemma evalThreat_totalScore_eq (b : Board) (pl : Player) (pos : Position) :
    (evalThreat b pl pos).totalScore =
      patternScoreSum (evaluatePosition b pos pl) * HARD_AI_OWN_PATTERN_MULTIPLIER +
        patternScoreSum (evaluatePosition b pos pl.other) *
          HARD_AI_OPPONENT_PATTERN_MULTIPLIER +
        (if winsAt b pos pl then BONUS_WINNING_MOVE else 0) +
        (if winsAt b pos pl.other then BONUS_BLOCK_WIN else 0) +
        ((((evaluatePosition b pos pl).filter fun p =>
          p.type == PatternType.openFour).length : Nat) : ℚ) * BONUS_OPEN_FOUR_MULTIPLIER +
        ((((evaluatePosition b pos pl).filter fun p =>
          p.type == PatternType.four).length : Nat) : ℚ) * BONUS_FOUR_MULTIPLIER +
        ((((evaluatePosition b pos pl).filter fun p =>
          p.type == PatternType.openThree).length : Nat) : ℚ) * BONUS_OPEN_THREE_MULTIPLIER +
        ((((evaluatePosition b pos pl.other).filter fun p =>
          p.type == PatternType.openFour).length : Nat) : ℚ) * BONUS_BLOCK_OPEN_FOUR +
        ((((evaluatePosition b pos pl.other).filter fun p =>
          p.type == PatternType.four).length : Nat) : ℚ) * BONUS_BLOCK_FOUR := by
  simp only [evalThreat]
  split_ifs <;> ring

lemma evalThreat_ge_win (b : Board) (pl : Player) (pos : Position)
    (hwin : winsAt b pos pl = true)
    (hfive : ∃ pat ∈ evaluatePosition b pos pl, pat.type = PatternType.five) :
    (11500000 : ℚ) ≤ (evalThreat b pl pos).totalScore := by
  obtain ⟨pat, hpat, htype⟩ := hfive
  have hsc := evaluatePosition_five_score b pos pl pat hpat htype
  have hmy : SCORE_FIVE ≤ patternScoreSum (evaluatePosition b pos pl) := by
    rw [← hsc]
    exact patternScoreSum_single_le _ pat hpat
      fun p hp => (evaluatePosition_score_facts b pos pl p hp).1
  have hopp : 0 ≤ patternScoreSum (evaluatePosition b pos pl.other) :=
    patternScoreSum_nonneg _
      fun p hp => (evaluatePosition_score_facts b pos pl.other p hp).1
  have c1 : (0 : ℚ) ≤ ((((evaluatePosition b pos pl).filter fun p =>
      p.type == PatternType.openFour).length : Nat) : ℚ) := Nat.cast_nonneg _
  have c2 : (0 : ℚ) ≤ ((((evaluatePosition b pos pl).filter fun p =>
      p.type == PatternType.four).length : Nat) : ℚ) := Nat.cast_nonneg _
  have c3 : (0 : ℚ) ≤ ((((evaluatePosition b pos pl).filter fun p =>
      p.type == PatternType.openThree).length : Nat) : ℚ) := Nat.cast_nonneg _
  have c4 : (0 : ℚ) ≤ ((((evaluatePosition b pos pl.other).filter fun p =>
      p.type == PatternType.openFour).length : Nat) : ℚ) := Nat.cast_nonneg _
  have c5 : (0 : ℚ) ≤ ((((evaluatePosition b pos pl.other).filter fun p =>
      p.type == PatternType.four).length : Nat) : ℚ) := Nat.cast_nonneg _
  rw [SCORE_FIVE] at hmy
  rw [evalThreat_totalScore_eq, if_pos hwin]
  simp only [HARD_AI_OWN_PATTERN_MULTIPLIER, HARD_AI_OPPONENT_PATTERN_MULTIPLIER,
    BONUS_WINNING_MOVE, BONUS_BLOCK_WIN, BONUS_OPEN_FOUR_MULTIPLIER,
    BONUS_FOUR_MULTIPLIER, BONUS_OPEN_THREE_MULTIPLIER, BONUS_BLOCK_OPEN_FOUR,
    BONUS_BLOCK_FOUR]
  split_ifs <;> linarith

lemma evalThreat_le_nonwin (b : Board) (pl : Player) (pos : Position)
    (hnw : winsAt b pos pl = false)
    (hnofive : ∀ pat ∈ evaluatePosition b pos pl, pat.type ≠ PatternType.five) :
    (evalThreat b pl pos).totalScore ≤ 11000000 := by
  have hmy : patternScoreSum (evaluatePosition b pos pl) ≤ 4 * SCORE_OPEN_FOUR :=
    patternScoreSum_le_of _ _ (by norm_num [SCORE_OPEN_FOUR])
      (fun p hp => (evaluatePosition_score_facts b pos pl p hp).2.2 (hnofive p hp))
      (evaluatePosition_length_le b pos pl)
  have hopp : patternScoreSum (evaluatePosition b pos pl.other) ≤ 4 * SCORE_FIVE :=
    patternScoreSum_le_of _ _ (by norm_num [SCORE_FIVE])
      (fun p hp => (evaluatePosition_score_facts b pos pl.other p hp).2.1)
      (evaluatePosition_length_le b pos pl.other)
  have k1 : ((((evaluatePosition b pos pl).filter fun p =>
      p.type == PatternType.openFour).length : Nat) : ℚ) ≤ 4 := by
    exact_mod_cast le_trans (List.length_filter_le _ _) (evaluatePosition_length_le b pos pl)
  have k2 : ((((evaluatePosition b pos pl).filter fun p =>
      p.type == PatternType.four).length : Nat) : ℚ) ≤ 4 := by
    exact_mod_cast le_trans (List.length_filter_le _ _) (evaluatePosition_length_le b pos pl)
  have k3 : ((((evaluatePosition b pos pl).filter fun p =>
      p.type == PatternType.openThree).length : Nat) : ℚ) ≤ 4 := by
    exact_mod_cast le_trans (List.length_filter_le _ _) (evaluatePosition_length_le b pos pl)
  have k4 : ((((evaluatePosition b pos pl.other).filter fun p =>
      p.type == PatternType.openFour).length : Nat) : ℚ) ≤ 4 := by
    exact_mod_cast le_trans (List.length_filter_le _ _)
      (evaluatePosition_length_le b pos pl.other)
  have k5 : ((((evaluatePosition b pos pl.other).filter fun p =>
      p.type == PatternType.four).length : Nat) : ℚ) ≤ 4 := by
    exact_mod_cast le_trans (List.length_filter_le _ _)
      (evaluatePosition_length_le b pos pl.other)
  have hmy0 : 0 ≤ patternScoreSum (evaluatePosition b pos pl) :=
    patternScoreSum_nonneg _ fun p hp => (evaluatePosition_score_facts b pos pl p hp).1
  have hopp0 : 0 ≤ patternScoreSum (evaluatePosition b pos pl.other) :=
    patternScoreSum_nonneg _
      fun p hp => (evaluatePosition_score_facts b pos pl.other p hp).1
  rw [SCORE_OPEN_FOUR] at hmy
  rw [SCORE_FIVE] at hopp
  rw [evalThreat_totalScore_eq, if_neg (by simp [hnw])]
  simp only [HARD_AI_OWN_PATTERN_MULTIPLIER, HARD_AI_OPPONENT_PATTERN_MULTIPLIER,
    BONUS_WINNING_MOVE, BONUS_BLOCK_WIN, BONUS_OPEN_FOUR_MULTIPLIER,
    BONUS_FOUR_MULTIPLIER, BONUS_OPEN_THREE_MULTIPLIER, BONUS_BLOCK_OPEN_FOUR,
    BONUS_BLOCK_FOUR]
  split_ifs <;> linarith

lemma evalThreat_ge_block (b : Board) (pl : Player) (pos : Position)
    (hblk : winsAt b pos pl.other = true)
    (hfive : ∃ pat ∈ evaluatePosition b pos pl.other, pat.type = PatternType.five) :
    (6300000 : ℚ) ≤ (evalThreat b pl pos).totalScore := by
  obtain ⟨pat, hpat, htype⟩ := hfive
  have hsc := evaluatePosition_five_score b pos pl.other pat hpat htype
  have hopp : SCORE_FIVE ≤ patternScoreSum (evaluatePosition b pos pl.other) := by
    rw [← hsc]
    exact patternScoreSum_single_le _ pat hpat
      fun p hp => (evaluatePosition_score_facts b pos pl.other p hp).1
  have hmy : 0 ≤ patternScoreSum (evaluatePosition b pos pl) :=
    patternScoreSum_nonneg _ fun p hp => (evaluatePosition_score_facts b pos pl p hp).1
  have c1 : (0 : ℚ) ≤ ((((evaluatePosition b pos pl).filter fun p =>
      p.type == PatternType.openFour).length : Nat) : ℚ) := Nat.cast_nonneg _
  have c2 : (0 : ℚ) ≤ ((((evaluatePosition b pos pl).filter fun p =>
      p.type == PatternType.four).length : Nat) : ℚ) := Nat.cast_nonneg _
  have c3 : (0 : ℚ) ≤ ((((evaluatePosition b pos pl).filter fun p =>
      p.type == PatternType.openThree).length : Nat) : ℚ) := Nat.cast_nonneg _
  have c4 : (0 : ℚ) ≤ ((((evaluatePosition b pos pl.other).filter fun p =>
      p.type == PatternType.openFour).length : Nat) : ℚ) := Nat.cast_nonneg _
  have c5 : (0 : ℚ) ≤ ((((evaluatePosition b pos pl.other).filter fun p =>
      p.type == PatternType.four).length : Nat) : ℚ) := Nat.cast_nonneg _
  rw [SCORE_FIVE] at hopp
  rw [evalThreat_totalScore_eq, if_pos hblk]
  simp only [HARD_AI_OWN_PATTERN_MULTIPLIER, HARD_AI_OPPONENT_PATTERN_MULTIPLIER,
    BONUS_WINNING_MOVE, BONUS_BLOCK_WIN, BONUS_OPEN_FOUR_MULTIPLIER,
    BONUS_FOUR_MULTIPLIER, BONUS_OPEN_THREE_MULTIPLIER, BONUS_BLOCK_OPEN_FOUR,
    BONUS_BLOCK_FOUR]
  split_ifs <;> linarith

lemma evalThreat_le_nonforced (b : Board) (pl : Player) (pos : Position)
    (hnw : winsAt b pos pl = false) (hnb : winsAt b pos pl.other = false)
    (hnofivemy : ∀ pat ∈ evaluatePosition b pos pl, pat.type ≠ PatternType.five)
    (hnofiveopp : ∀ pat ∈ evaluatePosition b pos pl.other,
      pat.type ≠ PatternType.five) :
    (evalThreat b pl pos).totalScore ≤ 900000 := by
  have hmy : patternScoreSum (evaluatePosition b pos pl) ≤ 4 * SCORE_OPEN_FOUR :=
    patternScoreSum_le_of _ _ (by norm_num [SCORE_OPEN_FOUR])
      (fun p hp => (evaluatePosition_score_facts b pos pl p hp).2.2 (hnofivemy p hp))
      (evaluatePosition_length_le b pos pl)
  have hopp : patternScoreSum (evaluatePosition b pos pl.other) ≤ 4 * SCORE_OPEN_FOUR :=
    patternScoreSum_le_of _ _ (by norm_num [SCORE_OPEN_FOUR])
      (fun p hp =>
        (evaluatePosition_score_facts b pos pl.other p hp).2.2 (hnofiveopp p hp))
      (evaluatePosition_length_le b pos pl.other)
  have k1 : ((((evaluatePosition b pos pl).filter fun p =>
      p.type == PatternType.openFour).length : Nat) : ℚ) ≤ 4 := by
    exact_mod_cast le_trans (List.length_filter_le _ _) (evaluatePosition_length_le b pos pl)
  have k2 : ((((evaluatePosition b pos pl).filter fun p =>
      p.type == PatternType.four).length : Nat) : ℚ) ≤ 4 := by
    exact_mod_cast le_trans (List.length_filter_le _ _) (evaluatePosition_length_le b pos pl)
  have k3 : ((((evaluatePosition b pos pl).filter fun p =>
      p.type == PatternType.openThree).length : Nat) : ℚ) ≤ 4 := by
    exact_mod_cast le_trans (List.length_filter_le _ _) (evaluatePosition_length_le b pos pl)
  have k4 : ((((evaluatePosition b pos pl.other).filter fun p =>
      p.type == PatternType.openFour).length : Nat) : ℚ) ≤ 4 := by
    exact_mod_cast le_trans (List.length_filter_le _ _)
      (evaluatePosition_length_le b pos pl.other)
  have k5 : ((((evaluatePosition b pos pl.other).filter fun p =>
      p.type == PatternType.four).length : Nat) : ℚ) ≤ 4 := by
    exact_mod_cast le_trans (List.length_filter_le _ _)
      (evaluatePosition_length_le b pos pl.other)
  have hmy0 : 0 ≤ patternScoreSum (evaluatePosition b pos pl) :=
    patternScoreSum_nonneg _ fun p hp => (evaluatePosition_score_facts b pos pl p hp).1
  have hopp0 : 0 ≤ patternScoreSum (evaluatePosition b pos pl.other) :=
    patternScoreSum_nonneg _
      fun p hp => (evaluatePosition_score_facts b pos pl.other p hp).1
  rw [SCORE_OPEN_FOUR] at hmy hopp
  rw [evalThreat_totalScore_eq, if_neg (by simp [hnw]), if_neg (by simp [hnb])]
  simp only [HARD_AI_OWN_PATTERN_MULTIPLIER, HARD_AI_OPPONENT_PATTERN_MULTIPLIER,
    BONUS_OPEN_FOUR_MULTIPLIER, BONUS_FOUR_MULTIPLIER, BONUS_OPEN_THREE_MULTIPLIER,
    BONUS_BLOCK_OPEN_FOUR, BONUS_BLOCK_FOUR]
  linarith

lemma stoneCond_place_of (b : Board) (epos : Position) (q pl : Player) (r c : Int)
    (hemp : cellAt b epos = none) (hst : stoneCond b pl r c = true) :
    stoneCond (placeStone b epos q) pl r c = true := by
  by_cases hne : r = epos.row ∧ c = epos.col
  · exfalso
    rw [stoneCond, Bool.and_eq_true, beq_iff_eq] at hst
    rw [cellAt] at hemp
    rw [hne.1, hne.2, hemp] at hst
    exact Option.noConfusion hst.2
  · rw [stoneCond, Bool.and_eq_true, beq_iff_eq] at hst ⊢
    rw [placeStone_cell_ne b epos q hne]
    exact hst

lemma open4_completion (b : Board) (pl : Player) (h4 : hasOpenRun4 b pl) :
    ∃ e : Position, e ∈ getRelevantPositions b AI_MEDIUM_HARD_SEARCH_RANGE ∧
      winsAt b e pl = true := by
  obtain ⟨p, d, hd, hstones, hopen⟩ := h4
  have hgood := four_directions_good d hd
  have hp0 : stoneCond b pl p.row p.col = true := by
    have h := hstones 0 (by omega)
    simpa [stepP] using h
  have hvp : isValidPosition p.row p.col = true := by
    rw [stoneCond, Bool.and_eq_true] at hp0
    exact hp0.1
  have hcp : getCell b p.row p.col = some pl := by
    rw [stoneCond, Bool.and_eq_true, beq_iff_eq] at hp0
    exact hp0.2
  have hnost : ¬noStones b := by
    intro hns
    obtain ⟨h1, h2, h3, h4'⟩ := isValidPosition_iff.mp hvp
    have hz := hns p.row.toNat (by simp only [BOARD_SIZE]; omega)
      p.col.toNat (by simp only [BOARD_SIZE]; omega)
    rw [Int.toNat_of_nonneg h1, Int.toNat_of_nonneg h3] at hz
    rw [hz] at hcp
    exact Option.noConfusion hcp
  have hst : ¬((countPieces b).1 = 0 ∧ (countPieces b).2 = 0) :=
    fun hz => hnost ((countPieces_zero_iff b).mp hz)
  rcases hopen with hopen | hopen
  · rw [openCellB, Bool.and_eq_true, beq_iff_eq] at hopen
    obtain ⟨hve, hemp⟩ := hopen
    refine ⟨stepP p d (-1), ?_, ?_⟩
    · rw [mem_getRelevantPositions_of_stones b _ hst]
      refine ⟨hve, hemp, p, hvp, by rw [cellAt, hcp]; rfl, ?_⟩
      have hr : p.row - (stepP p d (-1)).row = d.1 := by
        simp only [stepP]; ring
      have hc : p.col - (stepP p d (-1)).col = d.2 := by
        simp only [stepP]; ring
      rw [chebDist, hr, hc]
      obtain ⟨ha, hb, _⟩ := hgood
      simp only [AI_MEDIUM_HARD_SEARCH_RANGE]
      omega
    · rw [winsAt, checkWin_isWin_iff]
      refine ⟨d, hd, ?_⟩
      have hfwd : 4 ≤ fwdExt (placeStone b (stepP p d (-1)) pl) (stepP p d (-1)) d pl := by
        rw [fwdExt]
        refine scanRun_ge _ pl d SCAN_FUEL _ _ 4 (by decide) ?_
        intro i hi
        have hs := stoneCond_place_of b (stepP p d (-1)) pl pl _ _ hemp (hstones i hi)
        have er : (stepP p d (-1)).row + d.1 + (i : Int) * d.1 =
            (stepP p d (i : Int)).row := by
          simp only [stepP]; ring
        have ec : (stepP p d (-1)).col + d.2 + (i : Int) * d.2 =
            (stepP p d (i : Int)).col := by
          simp only [stepP]; ring
        rw [er, ec]
        exact hs
      rw [runLen]
      simp only [WIN_LENGTH]
      omega
  · rw [openCellB, Bool.and_eq_true, beq_iff_eq] at hopen
    obtain ⟨hve, hemp⟩ := hopen
    have hcast3 : ((3 : Nat) : Int) = (3 : Int) := by norm_num
    have hp3 := hstones 3 (by omega)
    rw [hcast3] at hp3
    rw [stoneCond, Bool.and_eq_true, beq_iff_eq] at hp3
    refine ⟨stepP p d 4, ?_, ?_⟩
    · rw [mem_getRelevantPositions_of_stones b _ hst]
      refine ⟨hve, hemp, stepP p d 3, hp3.1, by rw [cellAt, hp3.2]; rfl, ?_⟩
      have hr : (stepP p d 3).row - (stepP p d 4).row = -d.1 := by
        simp only [stepP]; ring
      have hc : (stepP p d 3).col - (stepP p d 4).col = -d.2 := by
        simp only [stepP]; ring
      rw [chebDist, hr, hc]
      obtain ⟨ha, hb, _⟩ := hgood
      simp only [AI_MEDIUM_HARD_SEARCH_RANGE, Int.natAbs_neg]
      omega
    · rw [winsAt, checkWin_isWin_iff]
      refine ⟨d, hd, ?_⟩
      have hbwd : 4 ≤ bwdExt (placeStone b (stepP p d 4) pl) (stepP p d 4) d pl := by
        rw [bwdExt]
        refine scanRun_ge _ pl (-d.1, -d.2) SCAN_FUEL _ _ 4 (by decide) ?_
        intro i hi
        have hcast : ((3 - i : Nat) : Int) = 3 - (i : Int) := by omega
        have hs0 := hstones (3 - i) (by omega)
        rw [hcast] at hs0
        have hs := stoneCond_place_of b (stepP p d 4) pl pl _ _ hemp hs0
        have er : (stepP p d 4).row - d.1 + (i : Int) * (-d.1, -d.2).1 =
            (stepP p d (3 - (i : Int))).row := by
          simp only [stepP, neg_pair_fst]; ring
        have ec : (stepP p d 4).col - d.2 + (i : Int) * (-d.1, -d.2).2 =
            (stepP p d (3 - (i : Int))).col := by
          simp only [stepP, neg_pair_snd]; ring
        rw [er, ec]
        exact hs
      rw [runLen]
      simp only [WIN_LENGTH]
      omega

lemma noImmediateWin_at (b : Board) (pl : Player) (hni : noImmediateWin b pl)
    (q : Position) (hvq : isValidPosition q.row q.col = true)
    (heq : cellAt b q = none) : winsAt b q pl = false := by
  obtain ⟨h1, h2, h3, h4⟩ := isValidPosition_iff.mp hvq
  have hcell : getCell b (q.row.toNat : Int) (q.col.toNat : Int) = none := by
    rw [Int.toNat_of_nonneg h1, Int.toNat_of_nonneg h3]
    exact heq
  have hz := hni q.row.toNat (by simp only [BOARD_SIZE]; omega) q.col.toNat
    (by simp only [BOARD_SIZE]; omega) hcell
  have hq' : (⟨(q.row.toNat : Int), (q.col.toNat : Int)⟩ : Position) = q := by
    rw [Int.toNat_of_nonneg h1, Int.toNat_of_nonneg h3]
  rw [hq'] at hz
  exact hz

lemma noImmediateWin_find_none (b : Board) (pl : Player) (hni : noImmediateWin b pl)
    (range : Nat) :
    (getRelevantPositions b range).find? (fun pos => winsAt b pos pl) = none := by
  rw [List.find?_eq_none]
  intro q hq
  obtain ⟨hvq, heq⟩ := relevant_valid_empty b range q hq
  simp [noImmediateWin_at b pl hni q hvq heq]

lemma getMediumMove_wins (b : Board) (pl : Player) (h4 : hasOpenRun4 b pl) :
    ∃ w, getMediumMove b pl = some w ∧ winsAt b w pl = true := by
  obtain ⟨e, hmem, hwin⟩ := open4_completion b pl h4
  have hfind : ((getRelevantPositions b AI_MEDIUM_HARD_SEARCH_RANGE).find?
      fun pos => winsAt b pos pl).isSome := by
    rw [List.find?_isSome]
    exact ⟨e, hmem, hwin⟩
  obtain ⟨w, hw⟩ := Option.isSome_iff_exists.mp hfind
  have hnemp : ¬(getRelevantPositions b AI_MEDIUM_HARD_SEARCH_RANGE).isEmpty := by
    intro hcon
    rw [List.isEmpty_iff] at hcon
    rw [hcon] at hmem
    exact List.not_mem_nil e hmem
  refine ⟨w, ?_, by simpa using List.find?_some hw⟩
  simp only [getMediumMove]
  rw [if_neg hnemp, hw]

lemma getMediumMove_blocks (b : Board) (pl : Player) (h4 : hasOpenRun4 b pl.other)
    (hni : noImmediateWin b pl) :
    ∃ w, getMediumMove b pl = some w ∧ winsAt b w pl.other = true := by
  obtain ⟨e, hmem, hwin⟩ := open4_completion b pl.other h4
  have hfind1 := noImmediateWin_find_none b pl hni AI_MEDIUM_HARD_SEARCH_RANGE
  have hfind : ((getRelevantPositions b AI_MEDIUM_HARD_SEARCH_RANGE).find?
      fun pos => winsAt b pos pl.other).isSome := by
    rw [List.find?_isSome]
    exact ⟨e, hmem, hwin⟩
  obtain ⟨w, hw⟩ := Option.isSome_iff_exists.mp hfind
  have hnemp : ¬(getRelevantPositions b AI_MEDIUM_HARD_SEARCH_RANGE).isEmpty := by
    intro hcon
    rw [List.isEmpty_iff] at hcon
    rw [hcon] at hmem
    exact List.not_mem_nil e hmem
  refine ⟨w, ?_, by simpa using List.find?_some hw⟩
  simp only [getMediumMove]
  rw [if_neg hnemp, hfind1, hw]

lemma mem_hardRanked (b : Board) (pl : Player) (e : ThreatEvaluation) :
    e ∈ hardRanked b pl ↔
      ∃ c ∈ getRelevantPositions b AI_MEDIUM_HARD_SEARCH_RANGE,
        evalThreat b pl c = e := by
  rw [hardRanked, (sortDesc_perm _).mem_iff, List.mem_map]

lemma hardRanked_head_ge (b : Board) (pl : Player) (e h : ThreatEvaluation)
    (t : List ThreatEvaluation) (hsort : hardRanked b pl = h :: t)
    (he : e ∈ hardRanked b pl) : e.totalScore ≤ h.totalScore := by
  rw [hsort] at he
  rcases List.mem_cons.mp he with rfl | he2
  · exact le_refl _
  · have hp := sortDesc_pairwise ((getRelevantPositions b
      AI_MEDIUM_HARD_SEARCH_RANGE).map (evalThreat b pl))
    rw [show sortDesc ((getRelevantPositions b AI_MEDIUM_HARD_SEARCH_RANGE).map
      (evalThreat b pl)) = hardRanked b pl from rfl, hsort, List.pairwise_cons] at hp
    exact hp.1 e he2

lemma getHardMove_head (b : Board) (pl : Player) (r : ℚ) (h7 : r ≤ 7/10)
    (e : ThreatEvaluation) (t : List ThreatEvaluation)
    (hsort : hardRanked b pl = e :: t) :
    getHardMove b pl r = some e.position := by
  have hnemp : ¬(getRelevantPositions b AI_MEDIUM_HARD_SEARCH_RANGE).isEmpty := by
    intro hcon
    rw [List.isEmpty_iff] at hcon
    rw [hardRanked, hcon] at hsort
    simp [sortDesc] at hsort
  rw [hardRanked] at hsort
  simp only [getHardMove]
  rw [if_neg hnemp, hsort]
  have htake : (e :: t).take AI_HARD_TOP_MOVES_COUNT = e :: t.take 2 := rfl
  rw [htake, AI_HARD_MOVE_WEIGHTS, pickWeighted]
  rw [if_pos (show r ≤ 0 + 7/10 by linarith)]

lemma getHardMove_wins (b : Board) (pl : Player) (r : ℚ) (hwf : boardWF b)
    (h4 : hasOpenRun4 b pl) (h7 : r ≤ 7/10) :
    ∃ w, getHardMove b pl r = some w ∧ winsAt b w pl = true := by
  obtain ⟨e, hmem, hwin⟩ := open4_completion b pl h4
  have hne : getRelevantPositions b AI_MEDIUM_HARD_SEARCH_RANGE ≠ [] :=
    List.ne_nil_of_mem hmem
  obtain ⟨h, t, hsort⟩ : ∃ h t, hardRanked b pl = h :: t := by
    cases hr : hardRanked b pl with
    | nil => exact absurd hr (hardRanked_ne_nil hne)
    | cons h t => exact ⟨h, t, rfl⟩
  refine ⟨h.position, getHardMove_head b pl r h7 h t hsort, ?_⟩
  obtain ⟨c, hc, hce⟩ := (mem_hardRanked b pl h).mp
    (by rw [hsort]; exact List.mem_cons_self h t)
  subst hce
  rw [evalThreat_position]
  by_contra hnw
  rw [Bool.not_eq_true] at hnw
  obtain ⟨hvc, _⟩ := relevant_valid_empty b _ c hc
  obtain ⟨hve, _⟩ := relevant_valid_empty b _ e hmem
  have hfive := (winsAt_five b e pl hwf hve).mp hwin
  have hlow := evalThreat_ge_win b pl e hwin hfive
  have hnofive : ∀ pat ∈ evaluatePosition b c pl, pat.type ≠ PatternType.five := by
    intro pat hpat hf
    have hw := (winsAt_five b c pl hwf hvc).mpr ⟨pat, hpat, hf⟩
    rw [hnw] at hw
    exact Bool.noConfusion hw
  have hup := evalThreat_le_nonwin b pl c hnw hnofive
  have hmem2 : evalThreat b pl e ∈ hardRanked b pl :=
    (mem_hardRanked b pl _).mpr ⟨e, hmem, rfl⟩
  have hge := hardRanked_head_ge b pl (evalThreat b pl e) _ t hsort hmem2
  linarith

lemma getHardMove_blocks (b : Board) (pl : Player) (r : ℚ) (hwf : boardWF b)
    (h4 : hasOpenRun4 b pl.other) (hni : noImmediateWin b pl) (h7 : r ≤ 7/10) :
    ∃ w, getHardMove b pl r = some w ∧ winsAt b w pl.other = true := by
  obtain ⟨e, hmem, hwin⟩ := open4_completion b pl.other h4
  have hne : getRelevantPositions b AI_MEDIUM_HARD_SEARCH_RANGE ≠ [] :=
    List.ne_nil_of_mem hmem
  obtain ⟨h, t, hsort⟩ : ∃ h t, hardRanked b pl = h :: t := by
    cases hr : hardRanked b pl with
    | nil => exact absurd hr (hardRanked_ne_nil hne)
    | cons h t => exact ⟨h, t, rfl⟩
  refine ⟨h.position, getHardMove_head b pl r h7 h t hsort, ?_⟩
  obtain ⟨c, hc, hce⟩ := (mem_hardRanked b pl h).mp
    (by rw [hsort]; exact List.mem_cons_self h t)
  subst hce
  rw [evalThreat_position]
  by_contra hnb
  rw [Bool.not_eq_true] at hnb
  obtain ⟨hvc, hec⟩ := relevant_valid_empty b _ c hc
  obtain ⟨hve, _⟩ := relevant_valid_empty b _ e hmem
  have hnwc : winsAt b c pl = false := noImmediateWin_at b pl hni c hvc hec
  have hnofivemy : ∀ pat ∈ evaluatePosition b c pl, pat.type ≠ PatternType.five := by
    intro pat hpat hf
    have hw := (winsAt_five b c pl hwf hvc).mpr ⟨pat, hpat, hf⟩
    rw [hnwc] at hw
    exact Bool.noConfusion hw
  have hnofiveopp : ∀ pat ∈ evaluatePosition b c pl.other,
      pat.type ≠ PatternType.five := by
    intro pat hpat hf
    have hw := (winsAt_five b c pl.other hwf hvc).mpr ⟨pat, hpat, hf⟩
    rw [hnb] at hw
    exact Bool.noConfusion hw
  have hup := evalThreat_le_nonforced b pl c hnwc hnb hnofivemy hnofiveopp
  have hfive := (winsAt_five b e pl.other hwf hve).mp hwin
  have hlow := evalThreat_ge_block b pl e hwin hfive
  have hmem2 : evalThreat b pl e ∈ hardRanked b pl :=
    (mem_hardRanked b pl _).mpr ⟨e, hmem, rfl⟩
  have hge := hardRanked_head_ge b pl (evalThreat b pl e) _ t hsort hmem2
  linarith

/-- C3 (amended): on a well-formed board where the mover holds a
four-in-a-row with an open end, the medium tier always returns a
five-completing position (for every draw), and the hard tier does so
whenever the uniform draw satisfies `r ≤ 0.7` (its rank-1 selection region);
symmetrically, when the opponent holds such a four while the mover has no
immediate win, both tiers return a cell completing the opponent's five —
the blocking cell — under the same proviso for the hard tier.  The claim's
unconditional hard-tier statement is refuted by the counterexample. -/
theorem C3_forced_win_and_block (b : Board) (player : Player) (hwf : boardWF b) :
    (hasOpenRun4 b player → ∀ r : ℚ,
      (∃ w, getAIMove b player .medium r = some w ∧ winsAt b w player = true) ∧
      (r ≤ 7/10 →
        ∃ w, getAIMove b player .hard r = some w ∧ winsAt b w player = true)) ∧
    (hasOpenRun4 b player.other → noImmediateWin b player → ∀ r : ℚ,
      (∃ w, getAIMove b player .medium r = some w ∧
        winsAt b w player.other = true) ∧
      (r ≤ 7/10 →
        ∃ w, getAIMove b player .hard r = some w ∧
          winsAt b w player.other = true)) := by
  constructor
  · intro h4 r
    exact ⟨getMediumMove_wins b player h4,
      fun h7 => getHardMove_wins b player r hwf h4 h7⟩
  · intro h4 hni r
    exact ⟨getMediumMove_blocks b player h4 hni,
      fun h7 => getHardMove_blocks b player r hwf h4 hni h7⟩

/-- C3 counterexample: on the open four of `bOpen4` the hard tier does not
always complete the five: the draw r = 0.95 falls in the rank-3 region and
selects (6, 6), which is not a winning completion (the completions are
(7, 4) and (7, 9)). -/
theorem C3_counterexample :
    hasOpenRun4 bOpen4 Player.one ∧
    ((0 : ℚ) ≤ 95/100 ∧ (95/100 : ℚ) < 1) ∧
    getAIMove bOpen4 .one .hard (95/100) = some ⟨6, 6⟩ ∧
    winsAt bOpen4 ⟨6, 6⟩ .one = false :=
  ⟨⟨⟨7, 5⟩, (0, 1), by decide, by decide, Or.inl (by decide)⟩,
    ⟨by norm_num, by norm_num⟩, by with_unfolding_all decide, by decide⟩

/-- C3 witness: on the open four of `bOpen4`, both tiers return a winning
completion for the first player at the draw r = 1/2 ≤ 0.7; with the second
player to move (who has no immediate win there), both tiers return a cell
blocking the first player's completion. -/
theorem C3_witness :
    (boardWF bOpen4 ∧ hasOpenRun4 bOpen4 Player.one ∧ ((1 : ℚ)/2 ≤ 7/10) ∧
      (∃ w, getAIMove bOpen4 .one .medium (1/2) = some w ∧
        winsAt bOpen4 w .one = true) ∧
      (∃ w, getAIMove bOpen4 .one .hard (1/2) = some w ∧
        winsAt bOpen4 w .one = true)) ∧
    (hasOpenRun4 bOpen4 Player.two.other ∧ noImmediateWin bOpen4 .two ∧
      (∃ w, getAIMove bOpen4 .two .medium (1/2) = some w ∧
        winsAt bOpen4 w Player.two.other = true) ∧
      (∃ w, getAIMove bOpen4 .two .hard (1/2) = some w ∧
        winsAt bOpen4 w Player.two.other = true)) := by
  have hwf : boardWF bOpen4 := by decide
  have h4 : hasOpenRun4 bOpen4 Player.one :=
    ⟨⟨7, 5⟩, (0, 1), by decide, by decide, Or.inl (by decide)⟩
  have hni : noImmediateWin bOpen4 Player.two := by decide
  have h1 := (C3_forced_win_and_block bOpen4 .one hwf).1 h4 (1/2)
  have h2 := (C3_forced_win_and_block bOpen4 .two hwf).2 h4 hni (1/2)
  exact ⟨⟨hwf, h4, by norm_num, h1.1, h1.2 (by norm_num)⟩,
    ⟨h4, hni, h2.1, h2.2 (by norm_num)⟩⟩

end Gomoku
